import Mathlib

/-!
Verification development for the ear-trainer quiz engine.

This file gives a shallow embedding, in Lean 4, of the core logic of the
ear-trainer repository and proves the specified properties about it:

* `src/logic/intervals.js`          — interval catalog and lookups
* `src/logic/noteUtils.js`          — equal-temperament frequency model
* `src/logic/adaptiveWeighting.js`  — accuracy-based sampling weights
* `src/logic/questionGenerator.js`  — question and session generation
* `src/logic/phaseProgression.js`   — phase-unlock rule and active intervals
* `src/storage/streakUtils.js`      — consecutive-day streak computation
* `src/hooks/useQuizSession.js`     — the session state machine

Modelling conventions:

* JavaScript exceptions become `Except QErr`.
* `Math.random()` draws become an injected oracle `rho : Nat -> Nat`; a draw
  of an index into an array of length `n > 0` is modelled as `rho k % n`,
  which ranges over exactly the indices `0 .. n-1` that
  `Math.floor(Math.random() * n)` produces.
* Frequencies: every frequency computed by the program has the exact real
  value `c * 2 ^ (e / 12)` with `c = 440` and `e : Int` (the code computes
  `440 * Math.pow(2, offset / 12)` and multiplies by `Math.pow(2, s / 12)`).
  We represent such a number exactly by the pair `(c, e)` (structure `Hz`);
  multiplication by `2 ^ (s / 12)` is then exponent addition.  The order on
  these exact reals is decidable: for nonnegative coefficients,
  `c1 * 2 ^ (e1 / 12) <= c2 * 2 ^ (e2 / 12)` iff
  `c1 ^ 12 * 2 ^ e1 <= c2 ^ 12 * 2 ^ e2` (raise both sides to the 12th
  power), which is rational arithmetic; `Hz.le` uses this form, and
  `Hz.le_iff_real` proves it equivalent to the real-number order.
* Timestamps (`streakUtils.js`) are modelled as integer milliseconds since
  the Unix epoch, i.e. the value of `Date.prototype.getTime` after ISO-8601
  parsing; `toDay` floors them to midnight UTC exactly as
  `Date.UTC(getUTCFullYear, getUTCMonth, getUTCDate)` does.
-/

namespace EarTrainer

/-- Error values for the JavaScript `throw new Error(...)` sites of the core
logic, one constructor per distinct throw site family. -/
inductive QErr where
  /-- thrown by `randomPick` on an empty array. -/
  | emptyArray : QErr
  /-- thrown by `getRootFrequency` for a key name not in `NOTE_FREQUENCIES`. -/
  | unknownKey : String → QErr
  /-- thrown by the generators when a drawn id is not in the catalog. -/
  | unknownInterval : String → QErr
  /-- thrown by `generateSession` and `generateAdaptiveSession` when `count`
  is not a positive integer. -/
  | invalidCount : ℚ → QErr
  /-- thrown by `getIntervalFrequency` for a negative semitone offset. -/
  | invalidOffset : ℤ → QErr
  /-- thrown by `pickFromWeightedPool` on an empty pool. -/
  | emptyPool : QErr
deriving DecidableEq, Repr

/-- Catalog entry, from `intervals.js`: `{ id, name, semitones, phase,
displayName }`. -/
structure Interval where
  id : String
  name : String
  semitones : ℕ
  phase : ℕ
  displayName : String
deriving DecidableEq, Repr

/-- The static interval catalog `INTERVALS` of `intervals.js`, verbatim. -/
def INTERVALS : List Interval :=
  [ ⟨"root",           "Root",           0,  1,  "Root (Unison)"⟩
  , ⟨"perfect_fourth", "Perfect Fourth", 5,  1,  "Perfect 4th"⟩
  , ⟨"perfect_fifth",  "Perfect Fifth",  7,  1,  "Perfect 5th"⟩
  , ⟨"tritone",        "Tritone",        6,  2,  "Tritone"⟩
  , ⟨"major_third",    "Major Third",    4,  3,  "Major 3rd"⟩
  , ⟨"minor_third",    "Minor Third",    3,  4,  "Minor 3rd"⟩
  , ⟨"major_sixth",    "Major Sixth",    9,  5,  "Major 6th"⟩
  , ⟨"minor_sixth",    "Minor Sixth",    8,  6,  "Minor 6th"⟩
  , ⟨"major_second",   "Major Second",   2,  7,  "Major 2nd"⟩
  , ⟨"minor_second",   "Minor Second",   1,  8,  "Minor 2nd"⟩
  , ⟨"major_seventh",  "Major Seventh",  11, 9,  "Major 7th"⟩
  , ⟨"minor_seventh",  "Minor Seventh",  10, 10, "Minor 7th"⟩ ]

/-- Root notes available as quiz keys (`KEYS` of `intervals.js`). -/
def KEYS : List String := ["C", "G", "D", "A", "E"]

/-- `getIntervalById(id)` of `intervals.js`: first catalog entry with the
given id, or `none`. -/
def getIntervalById (id : String) : Option Interval :=
  INTERVALS.find? (fun interval => interval.id == id)

/-- `getIntervalsForPhase(phase)` of `intervals.js`: all intervals whose
phase number is `<=` the given phase. -/
def getIntervalsForPhase (phase : ℕ) : List Interval :=
  INTERVALS.filter (fun interval => interval.phase ≤ phase)

/-- Exact representation of the frequency `coeff * 2 ^ (exp12 / 12)` Hz.
Every frequency the program computes has this shape (see the module
docstring); the components are carried exactly instead of evaluating the
irrational power. -/
structure Hz where
  coeff : ℚ
  exp12 : ℤ
deriving DecidableEq, Repr, Inhabited

/-- Order on `Hz` values: comparing `c1 * 2 ^ (e1 / 12)` with
`c2 * 2 ^ (e2 / 12)` for nonnegative coefficients is equivalent to comparing
the 12th powers `c1 ^ 12 * 2 ^ e1` and `c2 ^ 12 * 2 ^ e2`, which is
decidable rational arithmetic.  `Hz.le_iff_real` below proves the
equivalence with the order on the represented real numbers. -/
def Hz.le (a b : Hz) : Prop :=
  a.coeff ^ 12 * (2 : ℚ) ^ a.exp12 ≤ b.coeff ^ 12 * (2 : ℚ) ^ b.exp12

instance (a b : Hz) : Decidable (Hz.le a b) := by
  unfold Hz.le; infer_instance

/-- Semitone offsets from A4 for the octave-3 and octave-4 note names, from
`noteUtils.js` (`SEMITONES_FROM_A4`), verbatim. -/
def SEMITONES_FROM_A4 : List (String × ℤ) :=
  [ ("C3", -21), ("C#3", -20), ("D3", -19), ("D#3", -18), ("E3", -17), ("F3", -16)
  , ("F#3", -15), ("G3", -14), ("G#3", -13), ("A3", -12), ("A#3", -11), ("B3", -10)
  , ("C4", -9),  ("C#4", -8),  ("D4", -7),  ("D#4", -6),  ("E4", -5),  ("F4", -4)
  , ("F#4", -3), ("G4", -2),  ("G#4", -1),  ("A4", 0),   ("A#4", 1),  ("B4", 2) ]

/-- `NOTE_FREQUENCIES` of `noteUtils.js`: maps each note name to
`440 * 2 ^ (offset / 12)` Hz, represented exactly. -/
def NOTE_FREQUENCIES : List (String × Hz) :=
  SEMITONES_FROM_A4.map (fun p => (p.1, ⟨440, p.2⟩))

/-- `getRootFrequency(keyName)` of `noteUtils.js`: looks up `keyName + "4"`
in the note table; throws `Unknown key` when absent. -/
def getRootFrequency (keyName : String) : Except QErr Hz :=
  match NOTE_FREQUENCIES.find? (fun p => p.1 == keyName ++ "4") with
  | some p => .ok p.2
  | none => .error (.unknownKey keyName)

/-- `getIntervalFrequency(rootHz, semitones)` of `noteUtils.js`: throws for
negative `semitones`, else returns `rootHz * 2 ^ (semitones / 12)` — in the
exact representation, addition of `semitones` to the exponent. -/
def getIntervalFrequency (rootHz : Hz) (semitones : ℤ) : Except QErr Hz :=
  if semitones < 0 then .error (.invalidOffset semitones)
  else .ok ⟨rootHz.coeff, rootHz.exp12 + semitones⟩

/-- Per-interval stat record, as consumed by `adaptiveWeighting.js`:
`{ intervalId, accuracy }` with `accuracy` possibly `null`. -/
structure Stat where
  intervalId : String
  accuracy : Option ℚ
deriving DecidableEq, Repr

/-- `getWeight(accuracy)` of `adaptiveWeighting.js`: `null` → 3,
`< 0.5` → 5, `< 0.8` → 3, otherwise 1. -/
def getWeight (accuracy : Option ℚ) : ℕ :=
  match accuracy with
  | none => 3
  | some a => if a < 1/2 then 5 else if a < 4/5 then 3 else 1

/-- Lookup in the `statMap` of `buildWeightedPool`: JavaScript
`new Map(entries)` keeps the last entry for a duplicated key, so the lookup
finds the last stat with the given id; a missing id yields `null`. -/
def statLookup (intervalStats : List Stat) (id : String) : Option ℚ :=
  match intervalStats.reverse.find? (fun s => s.intervalId == id) with
  | some s => s.accuracy
  | none => none

/-- `buildWeightedPool(activeIntervalIds, intervalStats)` of
`adaptiveWeighting.js`: for each active id in order, append the id `weight`
times, where the weight comes from the id's accuracy (`null` if absent). -/
def buildWeightedPool (activeIntervalIds : List String)
    (intervalStats : List Stat) : List String :=
  activeIntervalIds.flatMap
    (fun id => List.replicate (getWeight (statLookup intervalStats id)) id)

/-- `pickFromWeightedPool(pool)` of `adaptiveWeighting.js`: throws on the
empty pool, else a uniform draw, modelled by the oracle value `r`. -/
def pickFromWeightedPool (pool : List String) (r : ℕ) : Except QErr String :=
  if pool.isEmpty then .error .emptyPool
  else .ok (pool.getD (r % pool.length) "")

/-- Session record as inspected by `checkPhaseUnlock`:
`{ score, total }`. -/
structure SessionRec where
  score : ℕ
  total : ℕ
deriving DecidableEq, Repr

/-- `sessionAccuracy(session)` of `phaseProgression.js`: `score / total` as
a fraction, or 0 when `total` is 0 (JavaScript `!session.total`). -/
def sessionAccuracy (session : SessionRec) : ℚ :=
  if session.total = 0 then 0 else (session.score : ℚ) / session.total

/-- `PHASE_MASTERY_THRESHOLD` of `phaseProgression.js` (0.8). -/
def PHASE_MASTERY_THRESHOLD : ℚ := 4/5

/-- `PHASE_MASTERY_SESSIONS` of `phaseProgression.js`. -/
def PHASE_MASTERY_SESSIONS : ℕ := 3

/-- `MAX_PHASE` of `phaseProgression.js`. -/
def MAX_PHASE : ℕ := 10

/-- `checkPhaseUnlock(recentSessions, currentPhase)` of
`phaseProgression.js`: `null` at or above the max phase, `null` with fewer
than 3 sessions, else `currentPhase + 1` iff the first 3 sessions all reach
the mastery threshold. -/
def checkPhaseUnlock (recentSessions : List SessionRec)
    (currentPhase : ℕ) : Option ℕ :=
  if currentPhase ≥ MAX_PHASE then none
  else if recentSessions.length < PHASE_MASTERY_SESSIONS then none
  else if (recentSessions.take PHASE_MASTERY_SESSIONS).all
      (fun s => decide (sessionAccuracy s ≥ PHASE_MASTERY_THRESHOLD)) then
    some (currentPhase + 1)
  else none

/-- `getActiveIntervalsForPhase(phase, customActiveIds)` of
`phaseProgression.js`: a non-empty custom list is filtered to the ids valid
for the phase and resolved through the catalog; an empty filtered result, an
empty custom list, or no custom list falls back to the full phase set. -/
def getActiveIntervalsForPhase (phase : ℕ)
    (customActiveIds : Option (List String)) : List Interval :=
  let phaseIntervals := getIntervalsForPhase phase
  match customActiveIds with
  | some ids =>
    if ids.length > 0 then
      let validIds := phaseIntervals.map (fun i => i.id)
      let filtered := (ids.filter (fun id => validIds.contains id)).filterMap
        getIntervalById
      if filtered.length > 0 then filtered else phaseIntervals
    else phaseIntervals
  | none => phaseIntervals

/-- Milliseconds per day (`ONE_DAY_MS` of `streakUtils.js`). -/
def ONE_DAY_MS : ℤ := 24 * 60 * 60 * 1000

/-- `toDay(d)` of `streakUtils.js`: floors a timestamp (ms since epoch) to
midnight UTC of its calendar day; `Int.fdiv` is floor division, matching
`Date.UTC(getUTCFullYear, getUTCMonth, getUTCDate)` also before 1970. -/
def toDay (t : ℤ) : ℤ :=
  (t.fdiv ONE_DAY_MS) * ONE_DAY_MS

/-- Numeric descending sort, the extensional behaviour of the JavaScript
`[...].sort((a, b) => b - a)`. -/
def sortDesc (l : List ℤ) : List ℤ :=
  l.insertionSort (fun a b => a ≥ b)

/-- Loop body of `calculateStreak`: length of the initial run of exact
one-day gaps, walking the (descending) list. -/
def runLen : ℤ → List ℤ → ℕ
  | _, [] => 0
  | prev, x :: xs => if prev - x = ONE_DAY_MS then 1 + runLen x xs else 0

/-- `calculateStreak(sessionDates)` of `streakUtils.js`, with `now` the
evaluation time (`new Date()`): dedupe the timestamps by UTC day, sort
descending, return 0 when empty or when the latest day is neither today nor
yesterday, else 1 plus the run of consecutive days. -/
def calculateStreak (sessionDates : List ℤ) (now : ℤ) : ℕ :=
  if sessionDates.isEmpty then 0
  else
    let uniqueDays := sortDesc (sessionDates.map toDay).dedup
    let today := toDay now
    let yesterday := today - ONE_DAY_MS
    match uniqueDays with
    | [] => 0
    | d0 :: rest =>
      if d0 ≠ today ∧ d0 ≠ yesterday then 0
      else 1 + runLen d0 rest

/-- `randomPick(arr)` of `questionGenerator.js`: throws on an empty array,
else returns `arr[Math.floor(Math.random() * arr.length)]`, modelled by the
oracle value `r` reduced modulo the length. -/
def randomPick {α : Type} [Inhabited α] (arr : List α) (r : ℕ) : Except QErr α :=
  if arr.isEmpty then .error .emptyArray
  else .ok (arr.getD (r % arr.length) default)

/-- Question produced by the generator: `{ key, intervalId, rootHz,
intervalHz }`. -/
structure Question where
  key : String
  intervalId : String
  rootHz : Hz
  intervalHz : Hz
deriving DecidableEq, Repr, Inhabited

/-- `generateQuestion(activeIntervalIds, availableKeys)` of
`questionGenerator.js`; `rKey` and `rId` are the two oracle draws it
consumes (key first, then interval id, as in the source). -/
def generateQuestion (activeIntervalIds availableKeys : List String)
    (rKey rId : ℕ) : Except QErr Question := do
  let key ← randomPick availableKeys rKey
  let intervalId ← randomPick activeIntervalIds rId
  match getIntervalById intervalId with
  | none => .error (.unknownInterval intervalId)
  | some interval => do
    let rootHz ← getRootFrequency key
    let intervalHz ← getIntervalFrequency rootHz (interval.semitones : ℤ)
    .ok ⟨key, intervalId, rootHz, intervalHz⟩

/-- Body of the `Array.from` loop of `generateSession`: `n` independent
questions, question `i` consuming oracle draws `2 * (start + i)` and
`2 * (start + i) + 1`. -/
def genQuestions (activeIntervalIds availableKeys : List String)
    (rho : ℕ → ℕ) (start : ℕ) : ℕ → Except QErr (List Question)
  | 0 => .ok []
  | n + 1 => do
    let q ← generateQuestion activeIntervalIds availableKeys
      (rho (2 * start)) (rho (2 * start + 1))
    let rest ← genQuestions activeIntervalIds availableKeys rho (start + 1) n
    .ok (q :: rest)

/-- Check `!Number.isInteger(count) || count < 1` of the generators: `count`
is modelled as a rational to cover non-integer JavaScript numbers. -/
def invalidCountCheck (count : ℚ) : Bool :=
  count.den != 1 || count < 1

/-- `generateSession(activeIntervalIds, availableKeys, count)` of
`questionGenerator.js`: positive-integer check, then `count` independent
questions. -/
def generateSession (activeIntervalIds availableKeys : List String)
    (count : ℚ) (rho : ℕ → ℕ) : Except QErr (List Question) :=
  if invalidCountCheck count then .error (.invalidCount count)
  else genQuestions activeIntervalIds availableKeys rho 0 count.num.toNat

/-- Body of the `Array.from` loop of `generateAdaptiveSession`: the interval
id is drawn from the weighted pool, the key by direct indexing
(`availableKeys[Math.floor(Math.random() * length)]`, which yields the
JavaScript `undefined` — here the fallback name <undefined> — on an empty
array), then catalog lookup and frequency resolution in source order. -/
def genAdaptiveQuestions (activeIntervalIds availableKeys : List String)
    (intervalStats : List Stat) (rho : ℕ → ℕ) (start : ℕ) :
    ℕ → Except QErr (List Question)
  | 0 => .ok []
  | n + 1 => do
    let pool := buildWeightedPool activeIntervalIds intervalStats
    let intervalId ← pickFromWeightedPool pool (rho (2 * start))
    let key := availableKeys.getD (rho (2 * start + 1) % availableKeys.length)
      "undefined"
    match getIntervalById intervalId with
    | none => .error (.unknownInterval intervalId)
    | some interval => do
      let rootHz ← getRootFrequency key
      let intervalHz ← getIntervalFrequency rootHz (interval.semitones : ℤ)
      let rest ← genAdaptiveQuestions activeIntervalIds availableKeys
        intervalStats rho (start + 1) n
      .ok (⟨key, intervalId, rootHz, intervalHz⟩ :: rest)

/-- `generateAdaptiveSession(activeIntervalIds, availableKeys, count,
intervalStats)` of `questionGenerator.js`.  (The source builds the pool once
before the loop; the pool is a pure function of the arguments, so hoisting
it into the loop body above is equal.) -/
def generateAdaptiveSession (activeIntervalIds availableKeys : List String)
    (count : ℚ) (intervalStats : List Stat) (rho : ℕ → ℕ) :
    Except QErr (List Question) :=
  if invalidCountCheck count then .error (.invalidCount count)
  else genAdaptiveQuestions activeIntervalIds availableKeys intervalStats rho
    0 count.num.toNat

/-- Answer record of `useQuizSession.js`: `{ intervalId, correct,
usedRetry }`. -/
structure AnswerResult where
  intervalId : String
  correct : Bool
  usedRetry : Bool
deriving DecidableEq, Repr

/-- One step of the `reduce` in `buildBreakdown` of `useQuizSession.js`:
insert the id with zero counts when absent (JavaScript object insertion
order — appended at the end), then bump `total` and, when correct,
`correct`. -/
def bumpBreakdown (acc : List (String × ℕ × ℕ)) (id : String)
    (correct : Bool) : List (String × ℕ × ℕ) :=
  if (acc.find? (fun e => e.1 == id)).isSome then
    acc.map (fun e =>
      if e.1 == id then
        (e.1, e.2.1 + (if correct then 1 else 0), e.2.2 + 1)
      else e)
  else
    acc ++ [(id, (if correct then 1 else 0), 1)]

/-- `buildBreakdown(results)` of `useQuizSession.js`: per-interval
`(correct, total)` counts, as an insertion-ordered association list
(mirroring the JavaScript object). -/
def buildBreakdown (results : List AnswerResult) : List (String × ℕ × ℕ) :=
  results.foldl (fun acc r => bumpBreakdown acc r.intervalId r.correct) []

/-- Completion payload handed to `onSessionComplete`. -/
structure Payload where
  questions : List Question
  results : List AnswerResult
  score : ℕ
  total : ℕ
  intervalBreakdown : List (String × ℕ × ℕ)
deriving DecidableEq, Repr

/-- The `phase` field of the hook state. -/
inductive QPhase where
  | idle : QPhase
  | answering : QPhase
  | feedback : QPhase
  | complete : QPhase
deriving DecidableEq, Repr

/-- The state held by `useQuizSession` (`useState` of `INITIAL_STATE`
shape). -/
structure QuizState where
  questions : List Question
  currentIndex : ℕ
  phase : QPhase
  selectedAnswer : Option String
  isCorrect : Option Bool
  retryUsed : Bool
  sessionResults : List AnswerResult
deriving DecidableEq, Repr

/-- `INITIAL_STATE` of `useQuizSession.js`. -/
def INITIAL_STATE : QuizState :=
  { questions := []
  , currentIndex := 0
  , phase := .idle
  , selectedAnswer := none
  , isCorrect := none
  , retryUsed := false
  , sessionResults := [] }

/-- Side effects of one hook operation: completion payloads passed to
`onSessionComplete`, and questions passed to `audioEngine.playInterval`. -/
structure QuizEffects where
  payloads : List Payload
  audio : List Question
deriving DecidableEq, Repr

/-- The empty effect set. -/
def QuizEffects.none : QuizEffects := ⟨[], []⟩

/-- `computeAdvance(prev, newResults)` of `useQuizSession.js`: if the next
index passes the last question, enter `complete` and emit the completion
payload once; else enter `answering` at the next index, resetting the
per-question fields, and play the next question. -/
def computeAdvance (prev : QuizState) (newResults : List AnswerResult) :
    QuizState × QuizEffects :=
  let nextIndex := prev.currentIndex + 1
  if nextIndex ≥ prev.questions.length then
    let score := (newResults.filter (fun r => r.correct)).length
    ( { prev with
        currentIndex := nextIndex
      , phase := .complete
      , sessionResults := newResults
      , selectedAnswer := Option.none
      , isCorrect := Option.none
      , retryUsed := false }
    , ⟨[ { questions := prev.questions
         , results := newResults
         , score := score
         , total := newResults.length
         , intervalBreakdown := buildBreakdown newResults } ], []⟩ )
  else
    ( { prev with
        currentIndex := nextIndex
      , phase := .answering
      , sessionResults := newResults
      , selectedAnswer := Option.none
      , isCorrect := Option.none
      , retryUsed := false }
    , ⟨[], (prev.questions.getD nextIndex default) :: []⟩ )

/-- `submitAnswer(answeredIntervalId)` of `useQuizSession.js`: a no-op
without a current question; a correct answer appends a result and advances;
a first wrong answer enters `feedback`, consumes the retry and replays the
question; a wrong answer with the retry used appends a failed result and
advances. -/
def submitAnswer (prev : QuizState) (answeredIntervalId : String) :
    QuizState × QuizEffects :=
  match prev.questions[prev.currentIndex]? with
  | Option.none => (prev, QuizEffects.none)
  | some currentQuestion =>
    if answeredIntervalId == currentQuestion.intervalId then
      computeAdvance prev (prev.sessionResults ++
        [⟨currentQuestion.intervalId, true, prev.retryUsed⟩])
    else if !prev.retryUsed then
      ( { prev with
          selectedAnswer := some answeredIntervalId
        , isCorrect := some false
        , phase := .feedback
        , retryUsed := true }
      , ⟨[], [currentQuestion]⟩ )
    else
      computeAdvance prev (prev.sessionResults ++
        [⟨currentQuestion.intervalId, false, true⟩])

/-- `advanceToNext()` of `useQuizSession.js`. -/
def advanceToNext (prev : QuizState) : QuizState × QuizEffects :=
  computeAdvance prev prev.sessionResults

/-- Configuration passed to the hook (the fields `startSession` reads). -/
structure QuizConfig where
  intervalIds : List String
  keys : List String
  sessionLength : ℚ
  intervalStats : Option (List Stat)
deriving Repr

/-- `startSession()` of `useQuizSession.js`: generate the questions
(adaptive when `intervalStats` is a non-empty array), then reset the state
around them, enter `answering`, and play question 0.  A generator exception
propagates before `setState`, so an error leaves the state untouched (see
`runStart`). -/
def startSession (config : QuizConfig) (rho : ℕ → ℕ) :
    Except QErr (QuizState × QuizEffects) := do
  let hasStats := match config.intervalStats with
    | some stats => decide (stats.length > 0)
    | Option.none => false
  let questions ← (if hasStats then
      generateAdaptiveSession config.intervalIds config.keys
        config.sessionLength (config.intervalStats.getD []) rho
    else
      generateSession config.intervalIds config.keys config.sessionLength rho)
  .ok ( { INITIAL_STATE with questions := questions, phase := .answering }
      , ⟨[], questions.head?.toList⟩ )

/-- A `startSession` call as the host observes it: the thrown error is
caught outside the hook, so on failure the state is unchanged and no effect
happens. -/
def runStart (config : QuizConfig) (st : QuizState) (rho : ℕ → ℕ) :
    QuizState × QuizEffects :=
  match startSession config rho with
  | .ok res => res
  | .error _ => (st, QuizEffects.none)

/-- Calls the host can make on a started session. -/
inductive QuizOp where
  | submit : String → QuizOp
  | advance : QuizOp
deriving DecidableEq, Repr

/-- One call of the session API. -/
def stepOp (st : QuizState) : QuizOp → QuizState × QuizEffects
  | .submit id => submitAnswer st id
  | .advance => advanceToNext st

/-- A sequence of calls, accumulating the emitted effects in order. -/
def runOps (st : QuizState) : List QuizOp → QuizState × QuizEffects
  | [] => (st, QuizEffects.none)
  | op :: ops =>
    let r1 := stepOp st op
    let r2 := runOps r1.1 ops
    (r2.1, ⟨r1.2.payloads ++ r2.2.payloads, r1.2.audio ++ r2.2.audio⟩)

/-- Predicate picking out `submitAnswer` calls among session operations. -/
def isSubmit : QuizOp → Bool
  | .submit _ => true
  | .advance => false

/-- The ids of `customActiveIds` whose catalog entry exists and is valid for
`phase`, resolved to catalog entries.  This is the wording of the
specification for the custom branch of `getActiveIntervalsForPhase`; the
claim compares the implementation against it. -/
def phaseValidEntries (phase : ℕ) (ids : List String) : List Interval :=
  ids.filterMap (fun id =>
    match getIntervalById id with
    | some interval => if interval.phase ≤ phase then some interval else none
    | Option.none => Option.none)

/-- Run-length invariant of a started session of `n` questions: either the
run is complete with index and results saturated at `n`, or it is still
going with one result per fully answered question. -/
def SessionInv (n : ℕ) (st : QuizState) : Prop :=
  st.questions.length = n ∧
  ((st.phase = QPhase.complete ∧ st.currentIndex = n ∧
      st.sessionResults.length = n) ∨
   (st.phase ≠ QPhase.complete ∧ st.currentIndex < n ∧
      st.sessionResults.length = st.currentIndex))

/-- C4: every weight is 1, 3 or 5; no data gives 3; accuracy below 0.5
gives 5; accuracy in [0.5, 0.8) gives 3; accuracy at or above 0.8 gives 1;
in particular the boundaries 0.5 and 0.8 fall into the lower-weight
bracket (weights 3 and 1 respectively). -/
theorem claim4_weight_brackets :
    (∀ a : Option ℚ, getWeight a = 1 ∨ getWeight a = 3 ∨ getWeight a = 5) ∧
    getWeight Option.none = 3 ∧
    (∀ a : ℚ, a < 1/2 → getWeight (some a) = 5) ∧
    (∀ a : ℚ, 1/2 ≤ a → a < 4/5 → getWeight (some a) = 3) ∧
    (∀ a : ℚ, 4/5 ≤ a → getWeight (some a) = 1) ∧
    getWeight (some (1/2)) = 3 ∧ getWeight (some (4/5)) = 1 := by
  refine ⟨?_, rfl, ?_, ?_, ?_, ?_, ?_⟩
  · rintro (_ | a)
    · simp [getWeight]
    · simp only [getWeight]
      split_ifs <;> simp
  · intro a h
    simp only [getWeight]
    rw [if_pos h]
  · intro a h1 h2
    simp only [getWeight]
    rw [if_neg (not_lt.mpr h1), if_pos h2]
  · intro a h
    simp only [getWeight]
    rw [if_neg (by linarith), if_neg (by linarith)]
  · norm_num [getWeight]
  · norm_num [getWeight]

/-- Witness for C4 at concrete accuracies in each bracket. -/
theorem claim4_witness :
    getWeight (some (1/4)) = 5 ∧ getWeight (some (3/5)) = 3 ∧
      getWeight (some (9/10)) = 1 :=
  ⟨claim4_weight_brackets.2.2.1 (1/4) (by norm_num),
   claim4_weight_brackets.2.2.2.1 (3/5) (by norm_num) (by norm_num),
   claim4_weight_brackets.2.2.2.2.1 (9/10) (by norm_num)⟩

/-- C5: the weighted pool has length equal to the sum of the weights of the
active ids (with accuracy `null` for ids absent from the stats), every pool
element is one of the active ids, and an empty id list yields an empty
pool. -/
theorem claim5_weighted_pool :
    (∀ (ids : List String) (stats : List Stat),
      (buildWeightedPool ids stats).length
        = (ids.map (fun id => getWeight (statLookup stats id))).sum) ∧
    (∀ (ids : List String) (stats : List Stat) (x : String),
      x ∈ buildWeightedPool ids stats → x ∈ ids) ∧
    (∀ stats : List Stat, buildWeightedPool [] stats = []) := by
  refine ⟨?_, ?_, fun _ => rfl⟩
  · intro ids stats
    simp [buildWeightedPool, List.length_flatMap, Function.comp_def]
  · intro ids stats x hx
    rcases List.mem_flatMap.mp hx with ⟨a, ha, hrep⟩
    rwa [List.eq_of_mem_replicate hrep]

/-- Witness for C5: a concrete pool element is one of its active ids. -/
theorem claim5_witness :
    "perfect_fifth" ∈ (["root", "perfect_fifth"] : List String) :=
  claim5_weighted_pool.2.1 ["root", "perfect_fifth"] [] "perfect_fifth"
    (by decide)

/-- C10 (implicit frame effect): whenever there is no question at the
current index — in particular in the idle state and in the complete state —
`submitAnswer` returns the state unchanged with no payload and no audio. -/
theorem claim10_submit_noop (st : QuizState) (answeredIntervalId : String)
    (h : st.questions[st.currentIndex]? = Option.none) :
    submitAnswer st answeredIntervalId = (st, QuizEffects.none) := by
  simp [submitAnswer, h]

/-- Witness for C10 at the idle initial state. -/
theorem claim10_witness :
    submitAnswer INITIAL_STATE "root" = (INITIAL_STATE, QuizEffects.none) :=
  claim10_submit_noop INITIAL_STATE "root" rfl

/-- C2: on a question with the retry unused, a first wrong answer records
the selection, marks it incorrect, consumes the retry, enters `feedback`,
and appends nothing; a subsequent correct answer on the same question
appends exactly one result with `correct := true, usedRetry := true` and
advances; a subsequent wrong answer appends exactly one result with
`correct := false, usedRetry := true` and advances. -/
theorem claim2_retry_law (st : QuizState) (q : Question) (a : String)
    (hq : st.questions[st.currentIndex]? = some q)
    (hr : st.retryUsed = false)
    (ha : a ≠ q.intervalId) :
    (submitAnswer st a).1.selectedAnswer = some a ∧
    (submitAnswer st a).1.isCorrect = some false ∧
    (submitAnswer st a).1.retryUsed = true ∧
    (submitAnswer st a).1.phase = QPhase.feedback ∧
    (submitAnswer st a).1.sessionResults = st.sessionResults ∧
    (submitAnswer st a).1.currentIndex = st.currentIndex ∧
    (submitAnswer st a).1.questions = st.questions ∧
    (submitAnswer st a).2.payloads = [] ∧
    (∀ b : String, b = q.intervalId →
      (submitAnswer (submitAnswer st a).1 b).1.sessionResults
          = st.sessionResults ++ [⟨q.intervalId, true, true⟩] ∧
        (submitAnswer (submitAnswer st a).1 b).1.currentIndex
          = st.currentIndex + 1) ∧
    (∀ b : String, b ≠ q.intervalId →
      (submitAnswer (submitAnswer st a).1 b).1.sessionResults
          = st.sessionResults ++ [⟨q.intervalId, false, true⟩] ∧
        (submitAnswer (submitAnswer st a).1 b).1.currentIndex
          = st.currentIndex + 1) := by
  have ha' : (a == q.intervalId) = false := beq_eq_false_iff_ne.mpr ha
  have hfirst : submitAnswer st a =
      ( { st with
          selectedAnswer := some a
        , isCorrect := some false
        , phase := QPhase.feedback
        , retryUsed := true }
      , ⟨[], [q]⟩ ) := by
    simp [submitAnswer, hq, ha', hr]
  refine ⟨by rw [hfirst], by rw [hfirst], by rw [hfirst], by rw [hfirst],
    by rw [hfirst], by rw [hfirst], by rw [hfirst], by rw [hfirst], ?_, ?_⟩
  · intro b hb
    rw [hfirst]
    simp only [submitAnswer, hq, hb, beq_self_eq_true, if_pos]
    simp only [computeAdvance]
    split <;> simp
  · intro b hb
    have hb' : (b == q.intervalId) = false := beq_eq_false_iff_ne.mpr hb
    rw [hfirst]
    simp only [submitAnswer, hq, hb', Bool.false_eq_true, if_false,
      Bool.not_true]
    simp only [computeAdvance]
    split <;> simp

/-- Witness for C2: a concrete one-question session, answered wrong then
right, yields exactly one result with the retry flag set. -/
theorem claim2_witness :
    (submitAnswer (submitAnswer
        { questions := [⟨"C", "root", ⟨440, -9⟩, ⟨440, -9⟩⟩]
        , currentIndex := 0
        , phase := QPhase.answering
        , selectedAnswer := Option.none
        , isCorrect := Option.none
        , retryUsed := false
        , sessionResults := [] } "perfect_fifth").1 "root").1.sessionResults
      = [⟨"root", true, true⟩] :=
  (((claim2_retry_law
    { questions := [⟨"C", "root", ⟨440, -9⟩, ⟨440, -9⟩⟩]
    , currentIndex := 0
    , phase := QPhase.answering
    , selectedAnswer := Option.none
    , isCorrect := Option.none
    , retryUsed := false
    , sessionResults := [] }
    ⟨"C", "root", ⟨440, -9⟩, ⟨440, -9⟩⟩ "perfect_fifth"
    rfl rfl (by decide)).2.2.2.2.2.2.2.2.1) "root" rfl).1

/-- A session reaches the mastery threshold iff its total is nonzero and
its score-to-total ratio is at least 0.8; a zero total counts as accuracy 0
and fails. -/
theorem sessionAccuracy_ge_iff (s : SessionRec) :
    PHASE_MASTERY_THRESHOLD ≤ sessionAccuracy s ↔
      s.total ≠ 0 ∧ (4 : ℚ)/5 ≤ (s.score : ℚ) / s.total := by
  unfold sessionAccuracy PHASE_MASTERY_THRESHOLD
  split_ifs with h
  · simp [h]
  · simp [h]

/-- C3: `checkPhaseUnlock` returns `none` at the maximum phase 10 and when
fewer than 3 sessions are supplied; below the maximum with at least 3
sessions it returns `currentPhase + 1` exactly when each of the first 3
sessions has a nonzero total and accuracy at least 0.8, and `none`
otherwise; and the result never depends on sessions beyond the first 3. -/
theorem claim3_phase_unlock (recentSessions : List SessionRec)
    (currentPhase : ℕ) :
    (currentPhase = 10 →
      checkPhaseUnlock recentSessions currentPhase = Option.none) ∧
    (recentSessions.length < 3 →
      checkPhaseUnlock recentSessions currentPhase = Option.none) ∧
    (currentPhase < 10 → 3 ≤ recentSessions.length →
      (checkPhaseUnlock recentSessions currentPhase = some (currentPhase + 1)
        ↔ ∀ s ∈ recentSessions.take 3,
            s.total ≠ 0 ∧ (4 : ℚ)/5 ≤ (s.score : ℚ) / s.total)) ∧
    (currentPhase < 10 → 3 ≤ recentSessions.length →
      ¬ (∀ s ∈ recentSessions.take 3,
            s.total ≠ 0 ∧ (4 : ℚ)/5 ≤ (s.score : ℚ) / s.total) →
      checkPhaseUnlock recentSessions currentPhase = Option.none) ∧
    checkPhaseUnlock recentSessions currentPhase
      = checkPhaseUnlock (recentSessions.take 3) currentPhase := by
  have hall : ∀ l : List SessionRec,
      (l.all (fun s => decide (sessionAccuracy s ≥ PHASE_MASTERY_THRESHOLD))
          = true)
        ↔ ∀ s ∈ l, s.total ≠ 0 ∧ (4 : ℚ)/5 ≤ (s.score : ℚ) / s.total := by
    intro l
    rw [List.all_eq_true]
    constructor
    · intro h s hs
      exact (sessionAccuracy_ge_iff s).mp (of_decide_eq_true (h s hs))
    · intro h s hs
      exact decide_eq_true ((sessionAccuracy_ge_iff s).mpr (h s hs))
  refine ⟨?_, ?_, ?_, ?_, ?_⟩
  · intro h
    subst h
    simp [checkPhaseUnlock, MAX_PHASE]
  · intro h
    unfold checkPhaseUnlock PHASE_MASTERY_SESSIONS
    split_ifs <;> rfl
  · intro h1 h2
    unfold checkPhaseUnlock MAX_PHASE PHASE_MASTERY_SESSIONS
    rw [if_neg (by omega), if_neg (by omega)]
    constructor
    · intro hres
      by_cases hA : (recentSessions.take 3).all
          (fun s => decide (sessionAccuracy s ≥ PHASE_MASTERY_THRESHOLD))
            = true
      · exact (hall _).mp hA
      · rw [if_neg hA] at hres
        exact absurd hres (by simp)
    · intro hm
      rw [if_pos ((hall _).mpr hm)]
  · intro h1 h2 hnot
    unfold checkPhaseUnlock MAX_PHASE PHASE_MASTERY_SESSIONS
    rw [if_neg (by omega), if_neg (by omega),
      if_neg (fun hA => hnot ((hall _).mp hA))]
  · unfold checkPhaseUnlock PHASE_MASTERY_SESSIONS
    have hlen : (recentSessions.take 3).length < 3 ↔
        recentSessions.length < 3 := by
      simp only [List.length_take]
      omega
    by_cases hp : currentPhase ≥ MAX_PHASE
    · rw [if_pos hp, if_pos hp]
    · rw [if_neg hp, if_neg hp]
      by_cases h : recentSessions.length < 3
      · rw [if_pos h, if_pos (hlen.mpr h)]
      · rw [if_neg h, if_neg (fun hc => h (hlen.mp hc)), List.take_take,
          min_self]

/-- Witness for C3: three sessions at 80 percent unlock phase 6 from
phase 5. -/
theorem claim3_witness :
    checkPhaseUnlock [⟨4, 5⟩, ⟨4, 5⟩, ⟨4, 5⟩] 5 = some 6 :=
  ((claim3_phase_unlock [⟨4, 5⟩, ⟨4, 5⟩, ⟨4, 5⟩] 5).2.2.1 (by norm_num)
    (by norm_num)).mpr (by
      intro s hs
      fin_cases hs <;> norm_num)

/-- The catalog ids are pairwise distinct. -/
theorem intervals_id_nodup : (INTERVALS.map (fun i => i.id)).Nodup := by
  decide

/-- A successful catalog lookup returns a catalog member carrying the
looked-up id. -/
theorem getIntervalById_spec {id : String} {iv : Interval}
    (h : getIntervalById id = some iv) : iv ∈ INTERVALS ∧ iv.id = id := by
  refine ⟨List.mem_of_find?_eq_some h, ?_⟩
  have := List.find?_some h
  exact eq_of_beq this

/-- Catalog lookup of a member's id finds exactly that member (ids are
unique in the catalog). -/
theorem getIntervalById_of_mem {iv : Interval} (h : iv ∈ INTERVALS) :
    getIntervalById iv.id = some iv := by
  have hsome : (INTERVALS.find? (fun i => i.id == iv.id)).isSome = true :=
    List.find?_isSome.mpr ⟨iv, h, beq_self_eq_true iv.id⟩
  rcases Option.isSome_iff_exists.mp hsome with ⟨iv', hiv'⟩
  have hspec := getIntervalById_spec hiv'
  have : iv' = iv :=
    List.inj_on_of_nodup_map intervals_id_nodup hspec.1 h hspec.2
  rw [getIntervalById, hiv', this]

/-- The custom branch of `getActiveIntervalsForPhase` — filter the ids by
membership in the phase set, then resolve through the catalog — equals the
specification's phrasing `phaseValidEntries`: the ids whose catalog entry
exists and is valid for the phase, resolved to entries. -/
theorem filtered_eq_phaseValidEntries (phase : ℕ) (ids : List String) :
    (ids.filter (fun id =>
        ((getIntervalsForPhase phase).map (fun i => i.id)).contains id)).filterMap
        getIntervalById
      = phaseValidEntries phase ids := by
  induction ids with
  | nil => rfl
  | cons id rest ih =>
    by_cases hc : ((getIntervalsForPhase phase).map (fun i => i.id)).contains id
        = true
    · have hmem : id ∈ (getIntervalsForPhase phase).map (fun i => i.id) :=
        List.elem_iff.mp hc
      rcases List.mem_map.mp hmem with ⟨iv, hivmem, hivid⟩
      have hphase : iv.phase ≤ phase := by
        have := (List.mem_filter.mp hivmem).2
        exact of_decide_eq_true this
      have hivcat : iv ∈ INTERVALS := (List.mem_filter.mp hivmem).1
      have hlook : getIntervalById id = some iv := by
        rw [← hivid]
        exact getIntervalById_of_mem hivcat
      rw [List.filter_cons_of_pos hc, List.filterMap_cons]
      unfold phaseValidEntries
      rw [List.filterMap_cons]
      simp only [hlook, if_pos hphase]
      unfold phaseValidEntries at ih
      rw [ih]
    · rw [List.filter_cons_of_neg hc]
      unfold phaseValidEntries
      rw [List.filterMap_cons]
      unfold phaseValidEntries at ih
      cases hlook : getIntervalById id with
      | none =>
        simp only [hlook]
        exact ih
      | some iv =>
        have hspec := getIntervalById_spec hlook
        have hnp : ¬ iv.phase ≤ phase := by
          intro hp
          apply hc
          apply List.elem_iff.mpr
          exact List.mem_map.mpr ⟨iv,
            List.mem_filter.mpr ⟨hspec.1, decide_eq_true hp⟩, hspec.2⟩
        simp only [hlook, if_neg hnp]
        exact ih

/-- C9: with no custom id list (or an empty one) the full phase set is
returned; a non-empty custom list is filtered to the ids with a
phase-valid catalog entry and returned when that filtered list is
non-empty, with fallback to the full phase set when it filters to
nothing. -/
theorem claim9_active_intervals (phase : ℕ)
    (customActiveIds : Option (List String)) :
    (customActiveIds = Option.none →
      getActiveIntervalsForPhase phase customActiveIds
        = getIntervalsForPhase phase) ∧
    (customActiveIds = some [] →
      getActiveIntervalsForPhase phase customActiveIds
        = getIntervalsForPhase phase) ∧
    (∀ ids : List String, customActiveIds = some ids → ids ≠ [] →
      (phaseValidEntries phase ids ≠ [] →
        getActiveIntervalsForPhase phase customActiveIds
          = phaseValidEntries phase ids) ∧
      (phaseValidEntries phase ids = [] →
        getActiveIntervalsForPhase phase customActiveIds
          = getIntervalsForPhase phase)) := by
  refine ⟨?_, ?_, ?_⟩
  · rintro rfl
    rfl
  · rintro rfl
    rfl
  · rintro ids rfl hne
    have hlen : ids.length > 0 := List.length_pos.mpr hne
    constructor
    · intro hfil
      have : (phaseValidEntries phase ids).length > 0 :=
        List.length_pos.mpr hfil
      simp only [getActiveIntervalsForPhase, if_pos hlen,
        filtered_eq_phaseValidEntries, if_pos this]
    · intro hfil
      have : ¬ (phaseValidEntries phase ids).length > 0 := by
        rw [hfil]
        simp
      simp only [getActiveIntervalsForPhase, if_pos hlen,
        filtered_eq_phaseValidEntries, if_neg this]

/-- Witness for C9: at phase 1 a custom list with one phase-valid id and one
not-yet-unlocked id keeps exactly the valid entry. -/
theorem claim9_witness :
    getActiveIntervalsForPhase 1 (some ["perfect_fifth", "tritone"])
      = phaseValidEntries 1 ["perfect_fifth", "tritone"] :=
  (((claim9_active_intervals 1 (some ["perfect_fifth", "tritone"])).2.2
    ["perfect_fifth", "tritone"] rfl (by decide)).1) (by decide)

/-- Every sampling weight is at least 1. -/
theorem getWeight_pos (a : Option ℚ) : 1 ≤ getWeight a := by
  rcases a with _ | a
  · norm_num [getWeight]
  · simp only [getWeight]
    split_ifs <;> norm_num

/-- Pool elements come from the active id list. -/
theorem mem_of_mem_buildWeightedPool {ids : List String} {stats : List Stat}
    {x : String} (hx : x ∈ buildWeightedPool ids stats) : x ∈ ids := by
  rcases List.mem_flatMap.mp hx with ⟨a, ha, hrep⟩
  rwa [List.eq_of_mem_replicate hrep]

/-- The pool over a non-empty id list is non-empty. -/
theorem buildWeightedPool_ne_nil {ids : List String} {stats : List Stat}
    (h : ids ≠ []) : buildWeightedPool ids stats ≠ [] := by
  rcases ids with _ | ⟨id, rest⟩
  · exact absurd rfl h
  · intro habs
    have hmem : id ∈ buildWeightedPool (id :: rest) stats := by
      apply List.mem_flatMap.mpr
      exact ⟨id, List.mem_cons_self id rest,
        List.mem_replicate.mpr ⟨by have := getWeight_pos (statLookup stats id); omega, rfl⟩⟩
    rw [habs] at hmem
    exact List.not_mem_nil id hmem

/-- A valid count check forces the count to be a positive integer; its
value as a natural number casts back to the original rational. -/
theorem count_valid_facts (count : ℚ) (h : invalidCountCheck count = false) :
    1 ≤ count.num.toNat ∧ (count.num.toNat : ℚ) = count := by
  unfold invalidCountCheck at h
  rw [Bool.or_eq_false_iff] at h
  obtain ⟨h1, h2⟩ := h
  have hden : count.den = 1 := by simpa using h1
  have hlt : ¬ count < 1 := of_decide_eq_false h2
  have hnum : (count.num : ℚ) = count := (Rat.den_eq_one_iff count).mp hden
  have h1le : (1 : ℚ) ≤ count := not_lt.mp hlt
  have hz : (1 : ℤ) ≤ count.num := by
    rw [← hnum] at h1le
    exact_mod_cast h1le
  refine ⟨by omega, ?_⟩
  have h0 : (count.num.toNat : ℤ) = count.num :=
    Int.toNat_of_nonneg (by omega)
  conv_rhs => rw [← hnum, ← h0]
  push_cast
  rfl

/-- A non-empty list draw succeeds and returns the indexed element. -/
theorem randomPick_ok {α : Type} [Inhabited α] (arr : List α) (r : ℕ)
    (h : arr ≠ []) :
    randomPick arr r = .ok (arr.getD (r % arr.length) default) := by
  unfold randomPick
  rw [if_neg]
  intro habs
  exact h (List.isEmpty_iff.mp habs)

/-- The element `randomPick` returns is a member of the list. -/
theorem getD_mod_mem {α : Type} (arr : List α) (r : ℕ) (d : α)
    (h : arr ≠ []) : arr.getD (r % arr.length) d ∈ arr := by
  have hlen : 0 < arr.length := List.length_pos.mpr h
  have hlt : r % arr.length < arr.length := Nat.mod_lt r hlen
  rw [List.getD_eq_getElem arr d hlt]
  exact List.getElem_mem hlt

/-- Invalid-input classes under which `generateQuestion` must throw: empty
id pool, empty key pool, no known key at all, or no catalog id at all. -/
def DoomedInput (ids keys : List String) : Prop :=
  ids = [] ∨ keys = [] ∨
    (∀ k ∈ keys, (getRootFrequency k).isOk = false) ∨
    (∀ i ∈ ids, getIntervalById i = Option.none)

/-- On a doomed input, `generateQuestion` throws whatever the oracle
draws. -/
theorem generateQuestion_doomed {ids keys : List String} (rKey rId : ℕ)
    (h : DoomedInput ids keys) :
    (generateQuestion ids keys rKey rId).isOk = false := by
  by_cases hk : keys = []
  · subst hk
    simp [generateQuestion, randomPick, Bind.bind, Except.bind, Except.isOk,
      Except.toBool]
  · by_cases hi : ids = []
    · subst hi
      simp only [generateQuestion, randomPick_ok keys rKey hk]
      simp [randomPick, Bind.bind, Except.bind, Except.isOk, Except.toBool]
    · have hkpick := randomPick_ok keys rKey hk
      have hipick := randomPick_ok ids rId hi
      set k0 := keys.getD (rKey % keys.length) default with hk0
      set i0 := ids.getD (rId % ids.length) default with hi0
      have hkmem : k0 ∈ keys := getD_mod_mem keys rKey default hk
      have himem : i0 ∈ ids := getD_mod_mem ids rId default hi
      rcases h with h | h | h | h
      · exact absurd h hi
      · exact absurd h hk
      · simp only [generateQuestion, hkpick, hipick, Bind.bind, Except.bind]
        cases hlook : getIntervalById i0 with
        | none => rfl
        | some iv =>
          rcases hroot : getRootFrequency k0 with e | hz
          · rfl
          · have hbad := h k0 hkmem
            rw [hroot] at hbad
            simp [Except.isOk, Except.toBool] at hbad
      · simp only [generateQuestion, hkpick, hipick, Bind.bind, Except.bind]
        rw [h i0 himem]
        rfl

/-- On a doomed input, the uniform question loop throws for any positive
length. -/
theorem genQuestions_doomed {ids keys : List String} (rho : ℕ → ℕ)
    (start n : ℕ) (hn : 1 ≤ n) (h : DoomedInput ids keys) :
    (genQuestions ids keys rho start n).isOk = false := by
  cases n with
  | zero => omega
  | succ m =>
    rcases hq : generateQuestion ids keys (rho (2 * start))
        (rho (2 * start + 1)) with e | q
    · simp [genQuestions, hq, Bind.bind, Except.bind, Except.isOk,
        Except.toBool]
    · have := generateQuestion_doomed
        (rho (2 * start)) (rho (2 * start + 1)) h
      rw [hq] at this
      exact absurd this (by simp [Except.isOk, Except.toBool])

/-- On a doomed input, the adaptive question loop throws for any positive
length. -/
theorem genAdaptiveQuestions_doomed {ids keys : List String}
    (stats : List Stat) (rho : ℕ → ℕ) (start n : ℕ) (hn : 1 ≤ n)
    (h : DoomedInput ids keys) :
    (genAdaptiveQuestions ids keys stats rho start n).isOk = false := by
  cases n with
  | zero => omega
  | succ m =>
    by_cases hi : ids = []
    · subst hi
      simp [genAdaptiveQuestions, pickFromWeightedPool, buildWeightedPool,
        Bind.bind, Except.bind, Except.isOk, Except.toBool]
    · have hpool : buildWeightedPool ids stats ≠ [] :=
        buildWeightedPool_ne_nil hi
      have hpick : pickFromWeightedPool (buildWeightedPool ids stats)
          (rho (2 * start)) = .ok ((buildWeightedPool ids stats).getD
            (rho (2 * start) % (buildWeightedPool ids stats).length) "") := by
        unfold pickFromWeightedPool
        rw [if_neg]
        intro habs
        exact hpool (List.isEmpty_iff.mp habs)
      set i0 := (buildWeightedPool ids stats).getD
        (rho (2 * start) % (buildWeightedPool ids stats).length) "" with hi0
      have himem : i0 ∈ ids :=
        mem_of_mem_buildWeightedPool
          (getD_mod_mem (buildWeightedPool ids stats) (rho (2 * start)) ""
            hpool)
      set k0 := keys.getD (rho (2 * start + 1) % keys.length) "undefined"
        with hk0
      have hkerr : (∀ k ∈ keys, (getRootFrequency k).isOk = false) →
          (getRootFrequency k0).isOk = false := by
        intro hall
        by_cases hkeys : keys = []
        · subst hkeys
          have hu : ([] : List String).getD
              (rho (2 * start + 1) % ([] : List String).length) "undefined"
                = "undefined" := rfl
          rw [hk0, hu]
          decide
        · exact hall k0
            (getD_mod_mem keys (rho (2 * start + 1)) "undefined" hkeys)
      have hkey : (getRootFrequency k0).isOk = false ∨
          (∀ i ∈ ids, getIntervalById i = Option.none) := by
        rcases h with h | h | h | h
        · exact absurd h hi
        · left
          apply hkerr
          subst h
          intro k hkmem
          exact absurd hkmem (List.not_mem_nil k)
        · exact Or.inl (hkerr h)
        · exact Or.inr h
      simp only [genAdaptiveQuestions, hpick, Bind.bind, Except.bind]
      rcases hkey with hkey | hids
      · cases hlook : getIntervalById i0 with
        | none => rfl
        | some iv =>
          rcases hroot : getRootFrequency k0 with e | hz
          · rfl
          · rw [hroot] at hkey
            exact absurd hkey (by simp [Except.isOk, Except.toBool])
      · rw [hids i0 himem]
        rfl

/-- On a doomed input, `generateSession` throws for every count (an invalid
count throws as well). -/
theorem generateSession_doomed (ids keys : List String) (count : ℚ)
    (rho : ℕ → ℕ) (h : DoomedInput ids keys) :
    (generateSession ids keys count rho).isOk = false := by
  unfold generateSession
  by_cases hc : invalidCountCheck count = true
  · simp [hc, Except.isOk, Except.toBool]
  · have hc' : invalidCountCheck count = false := by
      simpa using hc
    rw [if_neg (by simp [hc'])]
    exact genQuestions_doomed rho 0 _ (count_valid_facts count hc').1 h

/-- On a doomed input, `generateAdaptiveSession` throws for every count. -/
theorem generateAdaptiveSession_doomed (ids keys : List String) (count : ℚ)
    (stats : List Stat) (rho : ℕ → ℕ) (h : DoomedInput ids keys) :
    (generateAdaptiveSession ids keys count stats rho).isOk = false := by
  unfold generateAdaptiveSession
  by_cases hc : invalidCountCheck count = true
  · simp [hc, Except.isOk, Except.toBool]
  · have hc' : invalidCountCheck count = false := by
      simpa using hc
    rw [if_neg (by simp [hc'])]
    exact genAdaptiveQuestions_doomed stats rho 0 _
      (count_valid_facts count hc').1 h

/-- `startSession` fails whenever the generator it selects fails. -/
theorem startSession_isOk_false_of (config : QuizConfig) (rho : ℕ → ℕ)
    (hu : (generateSession config.intervalIds config.keys
      config.sessionLength rho).isOk = false)
    (ha : ∀ stats : List Stat, (generateAdaptiveSession config.intervalIds
      config.keys config.sessionLength stats rho).isOk = false) :
    (startSession config rho).isOk = false := by
  unfold startSession
  cases hst : config.intervalStats with
  | none =>
    rcases hq : generateSession config.intervalIds config.keys
        config.sessionLength rho with e | qs
    · simp [hst, hq, Bind.bind, Except.bind, Except.isOk, Except.toBool]
    · rw [hq] at hu
      simp [Except.isOk, Except.toBool] at hu
  | some stats =>
    by_cases hlen : decide (stats.length > 0) = true
    · rcases hq : generateAdaptiveSession config.intervalIds config.keys
          config.sessionLength stats rho with e | qs
      · simp [hst, hlen, hq, Bind.bind, Except.bind, Except.isOk,
          Except.toBool]
      · have := ha stats
        rw [hq] at this
        simp [Except.isOk, Except.toBool] at this
    · rcases hq : generateSession config.intervalIds config.keys
          config.sessionLength rho with e | qs
      · have hlen' : decide (stats.length > 0) = false := by simpa using hlen
        simp [hst, hlen', hq, Bind.bind, Except.bind, Except.isOk,
          Except.toBool]
      · rw [hq] at hu
        simp [Except.isOk, Except.toBool] at hu

/-- C8 (amended): a failing `startSession` leaves the host-observed state
exactly as it was with no effects; and the call is guaranteed to fail on an
invalid session length, an empty interval-id list, an empty key list, a key
list with no known key name at all, or an interval-id list with no catalog
id at all.  (A list merely containing some unknown entry can still succeed
when the random draws avoid it — see the counterexample.) -/
theorem claim8_start_atomic (config : QuizConfig) (st : QuizState)
    (rho : ℕ → ℕ) :
    ((startSession config rho).isOk = false →
      runStart config st rho = (st, QuizEffects.none)) ∧
    (invalidCountCheck config.sessionLength = true →
      (startSession config rho).isOk = false) ∧
    (config.intervalIds = [] → (startSession config rho).isOk = false) ∧
    (config.keys = [] → (startSession config rho).isOk = false) ∧
    ((∀ k ∈ config.keys, (getRootFrequency k).isOk = false) →
      (startSession config rho).isOk = false) ∧
    ((∀ i ∈ config.intervalIds, getIntervalById i = Option.none) →
      (startSession config rho).isOk = false) := by
  refine ⟨?_, ?_, ?_, ?_, ?_, ?_⟩
  · intro h
    unfold runStart
    rcases hs : startSession config rho with e | res
    · rfl
    · rw [hs] at h
      simp [Except.isOk, Except.toBool] at h
  · intro h
    apply startSession_isOk_false_of
    · simp [generateSession, h, Except.isOk, Except.toBool]
    · intro stats
      simp [generateAdaptiveSession, h, Except.isOk, Except.toBool]
  · intro h
    exact startSession_isOk_false_of config rho
      (generateSession_doomed _ _ _ _ (Or.inl h))
      (fun stats => generateAdaptiveSession_doomed _ _ _ _ _ (Or.inl h))
  · intro h
    exact startSession_isOk_false_of config rho
      (generateSession_doomed _ _ _ _ (Or.inr (Or.inl h)))
      (fun stats =>
        generateAdaptiveSession_doomed _ _ _ _ _ (Or.inr (Or.inl h)))
  · intro h
    exact startSession_isOk_false_of config rho
      (generateSession_doomed _ _ _ _ (Or.inr (Or.inr (Or.inl h))))
      (fun stats =>
        generateAdaptiveSession_doomed _ _ _ _ _ (Or.inr (Or.inr (Or.inl h))))
  · intro h
    exact startSession_isOk_false_of config rho
      (generateSession_doomed _ _ _ _ (Or.inr (Or.inr (Or.inr h))))
      (fun stats =>
        generateAdaptiveSession_doomed _ _ _ _ _ (Or.inr (Or.inr (Or.inr h))))

/-- Witness for C8: starting with an empty interval list fails and leaves
the idle state untouched. -/
theorem claim8_witness :
    runStart ⟨[], ["C"], 5, Option.none⟩ INITIAL_STATE (fun _ => 0)
      = (INITIAL_STATE, QuizEffects.none) :=
  (claim8_start_atomic ⟨[], ["C"], 5, Option.none⟩ INITIAL_STATE
      (fun _ => 0)).1
    ((claim8_start_atomic ⟨[], ["C"], 5, Option.none⟩ INITIAL_STATE
      (fun _ => 0)).2.2.1 rfl)

/-- Counterexample to C8 as stated: the interval-id list contains an id
that is not in the catalog (an invalid input by the claim), yet with a
draw that picks the valid id the call succeeds and mutates the state to
`answering` — the claim's "the call fails" does not hold for this input. -/
theorem claim8_counterexample :
    (startSession ⟨["root", "bogus"], ["C"], 1, Option.none⟩
        (fun _ => 0)).isOk = true ∧
    (runStart ⟨["root", "bogus"], ["C"], 1, Option.none⟩ INITIAL_STATE
        (fun _ => 0)).1.phase = QPhase.answering := by
  constructor
  · decide
  · decide

/-- Multiplying a frequency by `2 ^ (s / 12)` for `s ≥ 0` does not decrease
it (in the exact exponent representation). -/
theorem hz_le_shift (h : Hz) (s : ℤ) (hs : 0 ≤ s) :
    Hz.le h ⟨h.coeff, h.exp12 + s⟩ := by
  unfold Hz.le
  have h2 : (2:ℚ) ^ h.exp12 ≤ (2:ℚ) ^ (h.exp12 + s) :=
    zpow_le_zpow_right₀ one_le_two (by omega)
  have hc : 0 ≤ h.coeff ^ 12 := by positivity
  exact mul_le_mul_of_nonneg_left h2 hc

/-- On a pool of catalog ids and known keys, `generateQuestion` succeeds
and produces a question drawn from the pools whose interval frequency is at
least its root frequency. -/
theorem generateQuestion_ok (ids keys : List String) (rKey rId : ℕ)
    (hi : ids ≠ []) (hk : keys ≠ [])
    (hcat : ∀ i ∈ ids, (getIntervalById i).isSome = true)
    (hkey : ∀ k ∈ keys, (getRootFrequency k).isOk = true) :
    ∃ q : Question, generateQuestion ids keys rKey rId = .ok q ∧
      q.intervalId ∈ ids ∧ q.key ∈ keys ∧ Hz.le q.rootHz q.intervalHz := by
  have hkpick := randomPick_ok keys rKey hk
  have hipick := randomPick_ok ids rId hi
  set k0 := keys.getD (rKey % keys.length) default with hk0
  set i0 := ids.getD (rId % ids.length) default with hi0
  have hkmem : k0 ∈ keys := getD_mod_mem keys rKey default hk
  have himem : i0 ∈ ids := getD_mod_mem ids rId default hi
  rcases Option.isSome_iff_exists.mp (hcat i0 himem) with ⟨iv, hiv⟩
  have hkok := hkey k0 hkmem
  rcases hroot : getRootFrequency k0 with e | hz
  · rw [hroot] at hkok
    simp [Except.isOk, Except.toBool] at hkok
  · have hfreq : getIntervalFrequency hz (iv.semitones : ℤ)
        = .ok ⟨hz.coeff, hz.exp12 + (iv.semitones : ℤ)⟩ := by
      unfold getIntervalFrequency
      rw [if_neg (by omega)]
    refine ⟨⟨k0, i0, hz, ⟨hz.coeff, hz.exp12 + (iv.semitones : ℤ)⟩⟩, ?_,
      himem, hkmem, hz_le_shift hz (iv.semitones : ℤ) (by omega)⟩
    simp only [generateQuestion, hkpick, hipick, Bind.bind, Except.bind,
      hiv, hroot, hfreq]

/-- On a pool of catalog ids and known keys, the uniform question loop
succeeds with one question per slot, each satisfying the per-question
properties. -/
theorem genQuestions_ok (ids keys : List String) (rho : ℕ → ℕ)
    (hi : ids ≠ []) (hk : keys ≠ [])
    (hcat : ∀ i ∈ ids, (getIntervalById i).isSome = true)
    (hkey : ∀ k ∈ keys, (getRootFrequency k).isOk = true) :
    ∀ (n start : ℕ), ∃ qs : List Question,
      genQuestions ids keys rho start n = .ok qs ∧ qs.length = n ∧
      ∀ q ∈ qs, q.intervalId ∈ ids ∧ q.key ∈ keys ∧
        Hz.le q.rootHz q.intervalHz := by
  intro n
  induction n with
  | zero => exact fun start => ⟨[], rfl, rfl, by simp⟩
  | succ m ih =>
    intro start
    rcases generateQuestion_ok ids keys (rho (2 * start))
        (rho (2 * start + 1)) hi hk hcat hkey with ⟨q, hq, hqprops⟩
    rcases ih (start + 1) with ⟨qs, hqs, hlen, hprops⟩
    refine ⟨q :: qs, ?_, by simp [hlen], ?_⟩
    · simp only [genQuestions, hq, hqs, Bind.bind, Except.bind]
    · intro x hx
      rcases List.mem_cons.mp hx with rfl | hx
      · exact hqprops
      · exact hprops x hx

/-- C7 (amended): an invalid count — non-integer, zero or negative — always
fails with `InvalidCount`; and for non-empty pools in which every interval
id is in the catalog and every key is a known key name, `generateSession`
returns exactly `count` questions, each with its interval id from `ids`,
its key from `keys`, and interval frequency at least the root frequency.
(If `ids` merely contains some non-catalog id, or `keys` some unknown name,
the call fails exactly when such an entry is drawn — see the
counterexample.) -/
theorem claim7_generate_session (ids keys : List String) (count : ℚ)
    (rho : ℕ → ℕ) :
    (invalidCountCheck count = true →
      generateSession ids keys count rho = .error (.invalidCount count)) ∧
    (ids ≠ [] → keys ≠ [] →
      (∀ i ∈ ids, (getIntervalById i).isSome = true) →
      (∀ k ∈ keys, (getRootFrequency k).isOk = true) →
      invalidCountCheck count = false →
      (generateSession ids keys count rho).isOk = true ∧
      (∀ qs, generateSession ids keys count rho = .ok qs →
        (qs.length : ℚ) = count ∧
        ∀ q ∈ qs, q.intervalId ∈ ids ∧ q.key ∈ keys ∧
          Hz.le q.rootHz q.intervalHz)) := by
  constructor
  · intro h
    simp [generateSession, h]
  · intro hi hk hcat hkey hc
    rcases genQuestions_ok ids keys rho hi hk hcat hkey count.num.toNat 0
      with ⟨qs, hqs, hlen, hprops⟩
    have hgen : generateSession ids keys count rho = .ok qs := by
      unfold generateSession
      rw [if_neg (by simp [hc])]
      exact hqs
    refine ⟨by simp [hgen, Except.isOk, Except.toBool], ?_⟩
    intro qs' hqs'
    rw [hgen] at hqs'
    cases hqs'
    refine ⟨?_, hprops⟩
    rw [hlen]
    exact (count_valid_facts count hc).2

/-- Witness for C7 at a concrete valid configuration. -/
theorem claim7_witness :
    (generateSession ["root"] ["C"] 2 (fun _ => 0)).isOk = true :=
  ((claim7_generate_session ["root"] ["C"] 2 (fun _ => 0)).2 (by decide)
    (by decide) (by decide) (by decide) (by decide)).1

/-- Counterexample to C7 as stated: with the non-empty pools
`['root', 'bogus']` and `['C']` and the positive integer count 1, the draw
that picks `'bogus'` makes the call throw instead of returning one
question. -/
theorem claim7_counterexample :
    generateSession ["root", "bogus"] ["C"] 1 (fun _ => 1)
      = .error (.unknownInterval "bogus") := by
  rfl

/-- A day in milliseconds is positive. -/
theorem one_day_pos : (0 : ℤ) < ONE_DAY_MS := by norm_num [ONE_DAY_MS]

/-- Every normalized day is a multiple of a day in milliseconds. -/
theorem dvd_toDay (t : ℤ) : ONE_DAY_MS ∣ toDay t :=
  Dvd.intro (t.fdiv ONE_DAY_MS) (mul_comm _ _)

/-- The descending sort is sorted. -/
theorem sortDesc_sorted (l : List ℤ) :
    List.Pairwise (fun a b => a ≥ b) (sortDesc l) :=
  List.sorted_insertionSort _ l

/-- The descending sort permutes its input. -/
theorem sortDesc_perm (l : List ℤ) : (sortDesc l).Perm l :=
  List.perm_insertionSort _ l

/-- Sorting the deduplicated day list yields a strictly descending list. -/
theorem sortDesc_dedup_strict (l : List ℤ) :
    List.Pairwise (fun a b => a > b) (sortDesc l.dedup) := by
  have hnd : (sortDesc l.dedup).Nodup :=
    (sortDesc_perm l.dedup).symm.nodup l.nodup_dedup
  have := (sortDesc_sorted l.dedup).and hnd
  exact this.imp (fun hab => lt_of_le_of_ne hab.1.le (Ne.symm hab.2))

/-- Membership in the sorted deduplicated list is membership in the
original list. -/
theorem mem_sortDesc_dedup {l : List ℤ} {x : ℤ} :
    x ∈ sortDesc l.dedup ↔ x ∈ l := by
  rw [(sortDesc_perm l.dedup).mem_iff, List.mem_dedup]

/-- The head of the sorted deduplicated list is the maximum of the original
list. -/
theorem sortDesc_dedup_head_max {l : List ℤ} {d : ℤ} {rest : List ℤ}
    (h : sortDesc l.dedup = d :: rest) : l.maximum = some d := by
  apply List.maximum_eq_coe_iff.mpr
  constructor
  · rw [← mem_sortDesc_dedup, h]
    exact List.mem_cons_self d rest
  · intro b hb
    rw [← mem_sortDesc_dedup, h] at hb
    rcases List.mem_cons.mp hb with rfl | hb
    · exact le_refl b
    · exact (List.pairwise_cons.mp (h ▸ sortDesc_sorted l.dedup)).1 b hb

/-- Two lists with the same elements sort-deduplicate to the same list. -/
theorem sortDesc_dedup_congr {l l' : List ℤ}
    (h : l.toFinset = l'.toFinset) : sortDesc l.dedup = sortDesc l'.dedup := by
  haveI : IsAntisymm ℤ (fun a b => a ≥ b) :=
    ⟨fun a b hab hba => le_antisymm hba hab⟩
  apply List.eq_of_perm_of_sorted ?_ (sortDesc_sorted l.dedup)
    (sortDesc_sorted l'.dedup)
  have hmem : ∀ x : ℤ, x ∈ l ↔ x ∈ l' := by
    intro x
    rw [← List.mem_toFinset, h, List.mem_toFinset]
  refine ((sortDesc_perm l.dedup).trans ?_).trans
    (sortDesc_perm l'.dedup).symm
  apply (List.perm_ext_iff_of_nodup l.nodup_dedup l'.nodup_dedup).mpr
  intro a
  rw [List.mem_dedup, List.mem_dedup]
  exact hmem a

/-- Every day within the counted run is present in the walked list. -/
theorem runLen_mem :
    ∀ (rest : List ℤ) (d0 : ℤ) (i : ℕ), i ≤ runLen d0 rest →
      d0 - i * ONE_DAY_MS ∈ d0 :: rest := by
  intro rest
  induction rest with
  | nil =>
    intro d0 i hi
    simp only [runLen, Nat.le_zero] at hi
    subst hi
    simp
  | cons x xs ih =>
    intro d0 i hi
    simp only [runLen] at hi
    by_cases hgap : d0 - x = ONE_DAY_MS
    · rw [if_pos hgap] at hi
      cases i with
      | zero => simp
      | succ j =>
        have hj : j ≤ runLen x xs := by omega
        have hmem := ih x j hj
        have heq : d0 - (j + 1 : ℕ) * ONE_DAY_MS = x - j * ONE_DAY_MS := by
          push_cast
          linarith
        rw [heq]
        exact List.mem_cons_of_mem d0 hmem
    · rw [if_neg hgap] at hi
      interval_cases i
      simp

/-- The first day past the counted run is not in the walked list (for a
strictly descending list of day multiples). -/
theorem runLen_stop :
    ∀ (rest : List ℤ) (d0 : ℤ),
      List.Pairwise (fun a b => a > b) (d0 :: rest) →
      (∀ x ∈ d0 :: rest, ONE_DAY_MS ∣ x) →
      d0 - (1 + runLen d0 rest) * ONE_DAY_MS ∉ d0 :: rest := by
  intro rest
  induction rest with
  | nil =>
    intro d0 _ _
    simp only [runLen]
    intro habs
    rw [List.mem_singleton] at habs
    have := one_day_pos
    push_cast at habs
    omega
  | cons x xs ih =>
    intro d0 hp hd
    have hx : d0 > x := (List.pairwise_cons.mp hp).1 x (List.mem_cons_self x xs)
    have hday := one_day_pos
    simp only [runLen]
    by_cases hgap : d0 - x = ONE_DAY_MS
    · rw [if_pos hgap]
      have hrec := ih x (List.pairwise_cons.mp hp).2
        (fun y hy => hd y (List.mem_cons_of_mem d0 hy))
      have hr0 : (0:ℤ) ≤ (runLen x xs : ℤ) := by positivity
      have heq : d0 - (1 + ((1 + runLen x xs : ℕ) : ℤ)) * ONE_DAY_MS
          = x - (1 + ((runLen x xs : ℕ) : ℤ)) * ONE_DAY_MS := by
        push_cast
        linarith
      rw [heq]
      intro habs
      rcases List.mem_cons.mp habs with habs | habs
      · nlinarith [habs]
      · exact hrec habs
    · rw [if_neg hgap]
      have hge : d0 - x ≥ ONE_DAY_MS := by
        have hdvd : ONE_DAY_MS ∣ d0 - x :=
          dvd_sub (hd d0 (List.mem_cons_self d0 (x :: xs)))
            (hd x (List.mem_cons_of_mem d0 (List.mem_cons_self x xs)))
        exact Int.le_of_dvd (by omega) hdvd
      have hone : d0 - (1 + ((0:ℕ) : ℤ)) * ONE_DAY_MS = d0 - ONE_DAY_MS := by
        push_cast
        ring
      rw [hone]
      intro habs
      rcases List.mem_cons.mp habs with habs | habs
      · omega
      · rcases List.mem_cons.mp habs with habs | habs
        · omega
        · have hxy := (List.pairwise_cons.mp (List.pairwise_cons.mp hp).2).1
            _ habs
          omega

/-- An empty sorted deduplicated day list comes only from an empty input
list. -/
theorem sortDesc_dedup_eq_nil {l : List ℤ}
    (h : sortDesc l.dedup = []) : l = [] := by
  have hperm := sortDesc_perm l.dedup
  rw [h] at hperm
  have hd : l.dedup = [] := hperm.symm.eq_nil
  rcases l with _ | ⟨x, xs⟩
  · rfl
  · exfalso
    have : x ∈ (x :: xs).dedup := List.mem_dedup.mpr (List.mem_cons_self x xs)
    rw [hd] at this
    exact List.not_mem_nil x this

/-- Unfolding of `calculateStreak` once the sorted deduplicated day list is
known. -/
theorem calculateStreak_eq_of_head (dates : List ℤ) (now : ℤ) (d : ℤ)
    (rest : List ℤ) (hne : dates ≠ [])
    (hud : sortDesc (dates.map toDay).dedup = d :: rest) :
    calculateStreak dates now
      = if d ≠ toDay now ∧ d ≠ toDay now - ONE_DAY_MS then 0
        else 1 + runLen d rest := by
  unfold calculateStreak
  rw [if_neg (by simpa [List.isEmpty_iff] using hne)]
  simp only [hud]

/-- C6: the streak is 0 on an empty list; it depends only on the set of
UTC days of the timestamps (so duplicate same-day timestamps count once);
it is 0 when the most recent day is neither today nor yesterday; otherwise
it is at least 1 and counts exactly the consecutive run of calendar days
going backward from the most recent day: every day within the count is
present among the normalized timestamps and the first day past the count is
absent (so days older than the first gap are ignored). -/
theorem claim6_streak (dates : List ℤ) (now : ℤ) :
    (dates = [] → calculateStreak dates now = 0) ∧
    (∀ dates' : List ℤ,
      (dates.map toDay).toFinset = (dates'.map toDay).toFinset →
      calculateStreak dates now = calculateStreak dates' now) ∧
    (∀ m : ℤ, (dates.map toDay).maximum = some m →
      m ≠ toDay now → m ≠ toDay now - ONE_DAY_MS →
      calculateStreak dates now = 0) ∧
    (∀ m : ℤ, (dates.map toDay).maximum = some m →
      (m = toDay now ∨ m = toDay now - ONE_DAY_MS) →
      1 ≤ calculateStreak dates now ∧
      (∀ i : ℕ, i < calculateStreak dates now →
        m - (i : ℤ) * ONE_DAY_MS ∈ dates.map toDay) ∧
      m - (calculateStreak dates now : ℤ) * ONE_DAY_MS ∉ dates.map toDay) := by
  refine ⟨?_, ?_, ?_, ?_⟩
  · rintro rfl
    rfl
  · intro dates' h
    by_cases hne : dates = []
    · subst hne
      have : dates'.map toDay = [] := by
        have h2 := h.symm
        simp only [List.map_nil, List.toFinset_nil] at h2
        exact List.toFinset_eq_empty_iff _ |>.mp h2
      have hd' : dates' = [] := List.map_eq_nil_iff.mp this
      subst hd'
      rfl
    · have hne' : dates' ≠ [] := by
        intro habs
        subst habs
        apply hne
        have : dates.map toDay = [] := by
          simp only [List.map_nil, List.toFinset_nil] at h
          exact List.toFinset_eq_empty_iff _ |>.mp h
        exact List.map_eq_nil_iff.mp this
      have hud := sortDesc_dedup_congr h
      unfold calculateStreak
      rw [if_neg (by simpa [List.isEmpty_iff] using hne),
        if_neg (by simpa [List.isEmpty_iff] using hne'), hud]
  · intro m hmax h1 h2
    have hne : dates ≠ [] := by
      rintro rfl
      simp at hmax
    rcases hud : sortDesc (dates.map toDay).dedup with _ | ⟨d, rest⟩
    · exact absurd (List.map_eq_nil_iff.mp (sortDesc_dedup_eq_nil hud)) hne
    · have hd : d = m := by
        have := sortDesc_dedup_head_max hud
        rw [hmax] at this
        exact (Option.some.inj this).symm
      subst hd
      rw [calculateStreak_eq_of_head dates now d rest hne hud,
        if_pos ⟨h1, h2⟩]
  · intro m hmax hm
    have hne : dates ≠ [] := by
      rintro rfl
      simp at hmax
    rcases hud : sortDesc (dates.map toDay).dedup with _ | ⟨d, rest⟩
    · exact absurd (List.map_eq_nil_iff.mp (sortDesc_dedup_eq_nil hud)) hne
    · have hd : d = m := by
        have := sortDesc_dedup_head_max hud
        rw [hmax] at this
        exact (Option.some.inj this).symm
      subst hd
      have hcalc := calculateStreak_eq_of_head dates now d rest hne hud
      rw [if_neg (by tauto)] at hcalc
      refine ⟨by omega, ?_, ?_⟩
      · intro i hi
        rw [hcalc] at hi
        have hml := runLen_mem rest d i (by omega)
        rw [← hud] at hml
        exact mem_sortDesc_dedup.mp hml
      · have hstrict := sortDesc_dedup_strict (dates.map toDay)
        rw [hud] at hstrict
        have hdvd : ∀ x ∈ d :: rest, ONE_DAY_MS ∣ x := by
          intro x hxmem
          rw [← hud] at hxmem
          have hx := mem_sortDesc_dedup.mp hxmem
          rcases List.mem_map.mp hx with ⟨t, _, rfl⟩
          exact dvd_toDay t
        have hstop := runLen_stop rest d hstrict hdvd
        rw [hcalc]
        intro habs
        apply hstop
        have hcast : d - ((1 + runLen d rest : ℕ) : ℤ) * ONE_DAY_MS
            = d - (1 + (runLen d rest : ℤ)) * ONE_DAY_MS := by
          push_cast
          ring
        rw [hcast] at habs
        rw [← hud]
        exact mem_sortDesc_dedup.mpr habs

/-- Witness for C6: a single session two calendar days before the
evaluation time yields a streak of 0. -/
theorem claim6_witness :
    calculateStreak [0] (2 * ONE_DAY_MS + 5000) = 0 :=
  (claim6_streak [0] (2 * ONE_DAY_MS + 5000)).2.2.1 0 (by decide)
    (by decide) (by decide)

/-- Field-level description of `computeAdvance`: the index always moves
forward and the new results are installed; at the end of the question list
the phase becomes `complete` and exactly one payload carrying the results
is emitted; otherwise the phase is `answering` and nothing is emitted. -/
theorem computeAdvance_spec (prev : QuizState)
    (newResults : List AnswerResult) :
    (computeAdvance prev newResults).1.questions = prev.questions ∧
    (computeAdvance prev newResults).1.currentIndex
      = prev.currentIndex + 1 ∧
    (computeAdvance prev newResults).1.sessionResults = newResults ∧
    (prev.currentIndex + 1 ≥ prev.questions.length →
      (computeAdvance prev newResults).1.phase = QPhase.complete ∧
      (computeAdvance prev newResults).2.payloads
        = [⟨prev.questions, newResults,
            (newResults.filter (fun r => r.correct)).length,
            newResults.length, buildBreakdown newResults⟩]) ∧
    (prev.currentIndex + 1 < prev.questions.length →
      (computeAdvance prev newResults).1.phase = QPhase.answering ∧
      (computeAdvance prev newResults).2.payloads = []) := by
  simp only [computeAdvance]
  by_cases h : prev.currentIndex + 1 ≥ prev.questions.length
  · rw [if_pos h]
    exact ⟨rfl, rfl, rfl, fun _ => ⟨rfl, rfl⟩, fun h' => absurd h' (by omega)⟩
  · rw [if_neg h]
    exact ⟨rfl, rfl, rfl, fun h' => absurd h' h, fun _ => ⟨rfl, rfl⟩⟩

/-- `submitAnswer` in the `complete` state (index saturated) is a no-op. -/
theorem submit_complete_noop {n : ℕ} (st : QuizState) (a : String)
    (h : SessionInv n st) (hc : st.phase = QPhase.complete) :
    submitAnswer st a = (st, QuizEffects.none) := by
  rcases h with ⟨hlen, hinv | hinv⟩
  · have hnone : st.questions[st.currentIndex]? = Option.none :=
      List.getElem?_eq_none (by omega)
    simp [submitAnswer, hnone]
  · exact absurd hc hinv.1

/-- Invariant and payload bookkeeping for an advance that records one more
result on a live session. -/
theorem advance_case {n : ℕ} (st : QuizState) (r : AnswerResult)
    (hlen : st.questions.length = n)
    (hidx : st.currentIndex < n)
    (hres : st.sessionResults.length = st.currentIndex) :
    SessionInv n (computeAdvance st (st.sessionResults ++ [r])).1 ∧
    ((computeAdvance st (st.sessionResults ++ [r])).1.phase
        = QPhase.complete →
      (computeAdvance st (st.sessionResults ++ [r])).2.payloads.length = 1) ∧
    ((computeAdvance st (st.sessionResults ++ [r])).1.phase
        ≠ QPhase.complete →
      (computeAdvance st (st.sessionResults ++ [r])).2.payloads = []) ∧
    (∀ p ∈ (computeAdvance st (st.sessionResults ++ [r])).2.payloads,
      p.total = n ∧ p.results.length = n) := by
  obtain ⟨hq', hi', hr', hcompl, hmid⟩ :=
    computeAdvance_spec st (st.sessionResults ++ [r])
  by_cases hterm : st.currentIndex + 1 ≥ st.questions.length
  · obtain ⟨hph, hpay⟩ := hcompl hterm
    have hidx1 : st.currentIndex + 1 = n := by omega
    have hrlen : (st.sessionResults ++ [r]).length = n := by
      simp only [List.length_append, List.length_singleton]
      omega
    refine ⟨⟨?_, Or.inl ⟨hph, ?_, ?_⟩⟩, ?_, ?_, ?_⟩
    · rw [hq']
      exact hlen
    · rw [hi']
      omega
    · rw [hr']
      exact hrlen
    · intro _
      rw [hpay]
      rfl
    · intro hph'
      exact absurd hph hph'
    · intro p hp
      rw [hpay] at hp
      rcases List.mem_singleton.mp hp with rfl
      exact ⟨hrlen, hrlen⟩
  · have hterm' : st.currentIndex + 1 < st.questions.length := by omega
    obtain ⟨hph, hpay⟩ := hmid hterm'
    have hphne : (computeAdvance st (st.sessionResults ++ [r])).1.phase
        ≠ QPhase.complete := by
      rw [hph]
      intro hc
      cases hc
    refine ⟨⟨?_, Or.inr ⟨hphne, ?_, ?_⟩⟩, ?_, ?_, ?_⟩
    · rw [hq']
      exact hlen
    · rw [hi']
      omega
    · rw [hr', hi']
      simp only [List.length_append, List.length_singleton]
      omega
    · intro hph'
      exact absurd hph' hphne
    · intro _
      rw [hpay]
    · intro p hp
      rw [hpay] at hp
      exact absurd hp (List.not_mem_nil p)

/-- One `submitAnswer` call on a live session preserves the invariant and
emits exactly one payload — with full totals — exactly when it completes
the run. -/
theorem submit_step {n : ℕ} (st : QuizState) (a : String)
    (h : SessionInv n st) (hnc : st.phase ≠ QPhase.complete) :
    SessionInv n (submitAnswer st a).1 ∧
    ((submitAnswer st a).1.phase = QPhase.complete →
      (submitAnswer st a).2.payloads.length = 1) ∧
    ((submitAnswer st a).1.phase ≠ QPhase.complete →
      (submitAnswer st a).2.payloads = []) ∧
    (∀ p ∈ (submitAnswer st a).2.payloads,
      p.total = n ∧ p.results.length = n) := by
  rcases h with ⟨hlen, hinv | hinv⟩
  · exact absurd hinv.1 hnc
  · obtain ⟨-, hidx, hres⟩ := hinv
    have hidx' : st.currentIndex < n := hidx
    have hlt : st.currentIndex < st.questions.length := by omega
    have hq : st.questions[st.currentIndex]?
        = some st.questions[st.currentIndex] :=
      List.getElem?_eq_getElem hlt
    by_cases hcor : (a == st.questions[st.currentIndex].intervalId) = true
    · have hsub : submitAnswer st a = computeAdvance st (st.sessionResults ++
          [⟨st.questions[st.currentIndex].intervalId, true,
            st.retryUsed⟩]) := by
        simp only [submitAnswer, hq, hcor, if_pos]
      rw [hsub]
      exact advance_case st _ hlen hidx' hres
    · by_cases hretry : st.retryUsed = false
      · have hsub : submitAnswer st a =
            ( { st with
                selectedAnswer := some a
              , isCorrect := some false
              , phase := QPhase.feedback
              , retryUsed := true }
            , ⟨[], [st.questions[st.currentIndex]]⟩ ) := by
          simp [submitAnswer, hq, hcor, hretry]
        rw [hsub]
        have hfb : QPhase.feedback ≠ QPhase.complete := by
          intro hc
          cases hc
        refine ⟨⟨hlen, Or.inr ⟨hfb, hidx', hres⟩⟩, ?_, ?_, ?_⟩
        · intro hph
          exact absurd hph hfb
        · intro _
          rfl
        · intro p hp
          exact absurd hp (List.not_mem_nil p)
      · have hretry' : st.retryUsed = true := by
          rcases hb : st.retryUsed with _ | _
          · exact absurd hb hretry
          · rfl
        have hsub : submitAnswer st a = computeAdvance st
            (st.sessionResults ++
              [⟨st.questions[st.currentIndex].intervalId, false, true⟩]) := by
          simp [submitAnswer, hq, hcor, hretry']
        rw [hsub]
        exact advance_case st _ hlen hidx' hres

/-- A sequence of `submitAnswer` calls on a completed session does
nothing. -/
theorem runOps_complete_noop {n : ℕ} (ops : List QuizOp) :
    ∀ st : QuizState, ops.all isSubmit = true → SessionInv n st →
      st.phase = QPhase.complete → runOps st ops = (st, QuizEffects.none) := by
  induction ops with
  | nil => intro st _ _ _; rfl
  | cons op ops ih =>
    intro st hall hinv hc
    rw [List.all_cons, Bool.and_eq_true] at hall
    obtain ⟨hop, hops⟩ := hall
    cases op with
    | advance => cases hop
    | submit a =>
      have hstep : stepOp st (QuizOp.submit a) = (st, QuizEffects.none) :=
        submit_complete_noop st a hinv hc
      have hrec := ih st hops hinv hc
      simp only [runOps, hstep, hrec]
      rfl

/-- A sequence of `submitAnswer` calls on a live session preserves the
invariant and emits exactly one payload — with full totals — exactly when
the run reaches `complete`. -/
theorem runOps_submits {n : ℕ} (ops : List QuizOp) :
    ∀ st : QuizState, ops.all isSubmit = true → SessionInv n st →
      st.phase ≠ QPhase.complete →
      SessionInv n (runOps st ops).1 ∧
      ((runOps st ops).1.phase = QPhase.complete →
        (runOps st ops).2.payloads.length = 1) ∧
      ((runOps st ops).1.phase ≠ QPhase.complete →
        (runOps st ops).2.payloads = []) ∧
      (∀ p ∈ (runOps st ops).2.payloads,
        p.total = n ∧ p.results.length = n) := by
  induction ops with
  | nil =>
    intro st _ hinv hnc
    refine ⟨hinv, ?_, ?_, ?_⟩
    · intro hc
      exact absurd hc hnc
    · intro _
      rfl
    · intro p hp
      exact absurd hp (List.not_mem_nil p)
  | cons op ops ih =>
    intro st hall hinv hnc
    rw [List.all_cons, Bool.and_eq_true] at hall
    obtain ⟨hop, hops⟩ := hall
    cases op with
    | advance => cases hop
    | submit a =>
      obtain ⟨hinv1, hcompl1, hlive1, hprops1⟩ := submit_step st a hinv hnc
      by_cases h1 : (submitAnswer st a).1.phase = QPhase.complete
      · have hrec := runOps_complete_noop (n := n) ops
          (submitAnswer st a).1 hops hinv1 h1
        have hrun : runOps st (QuizOp.submit a :: ops)
            = ((submitAnswer st a).1,
               ⟨(submitAnswer st a).2.payloads ++ [],
                (submitAnswer st a).2.audio ++ []⟩) := by
          simp only [runOps, stepOp, hrec, QuizEffects.none]
        rw [hrun]
        simp only [List.append_nil]
        refine ⟨hinv1, ?_, ?_, hprops1⟩
        · intro _
          exact hcompl1 h1
        · intro hph
          exact absurd h1 hph
      · have hpay1 := hlive1 h1
        obtain ⟨hinv2, hcompl2, hlive2, hprops2⟩ :=
          ih (submitAnswer st a).1 hops hinv1 h1
        have hrun : runOps st (QuizOp.submit a :: ops)
            = ((runOps (submitAnswer st a).1 ops).1,
               ⟨(submitAnswer st a).2.payloads
                  ++ (runOps (submitAnswer st a).1 ops).2.payloads,
                (submitAnswer st a).2.audio
                  ++ (runOps (submitAnswer st a).1 ops).2.audio⟩) := by
          simp only [runOps, stepOp]
        rw [hrun]
        simp only [hpay1, List.nil_append]
        exact ⟨hinv2, hcompl2, hlive2, hprops2⟩

/-- The uniform question loop returns one question per slot. -/
theorem genQuestions_length (ids keys : List String) (rho : ℕ → ℕ) :
    ∀ (n start : ℕ) (qs : List Question),
      genQuestions ids keys rho start n = .ok qs → qs.length = n := by
  intro n
  induction n with
  | zero =>
    intro start qs h
    cases h
    rfl
  | succ m ih =>
    intro start qs h
    unfold genQuestions at h
    rcases hq : generateQuestion ids keys (rho (2 * start))
        (rho (2 * start + 1)) with e | q
    · rw [hq] at h
      cases h
    · rw [hq] at h
      rcases hrest : genQuestions ids keys rho (start + 1) m with e | rest
      · rw [hrest] at h
        cases h
      · rw [hrest] at h
        cases h
        simp only [List.length_cons]
        rw [ih (start + 1) rest hrest]

/-- The adaptive question loop returns one question per slot. -/
theorem genAdaptiveQuestions_length (ids keys : List String)
    (stats : List Stat) (rho : ℕ → ℕ) :
    ∀ (n start : ℕ) (qs : List Question),
      genAdaptiveQuestions ids keys stats rho start n = .ok qs →
        qs.length = n := by
  intro n
  induction n with
  | zero =>
    intro start qs h
    cases h
    rfl
  | succ m ih =>
    intro start qs h
    rcases hp : pickFromWeightedPool (buildWeightedPool ids stats)
        (rho (2 * start)) with e | i0
    · simp only [genAdaptiveQuestions, hp, Bind.bind, Except.bind] at h
      exact Except.noConfusion h
    · rcases hl : getIntervalById i0 with _ | iv
      · simp only [genAdaptiveQuestions, hp, hl, Bind.bind, Except.bind] at h
        exact Except.noConfusion h
      · rcases hr : getRootFrequency (keys.getD
            (rho (2 * start + 1) % keys.length) "undefined") with e | hz
        · simp only [genAdaptiveQuestions, hp, hl, hr, Bind.bind,
            Except.bind] at h
          exact Except.noConfusion h
        · rcases hf : getIntervalFrequency hz (iv.semitones : ℤ) with e | ihz
          · simp only [genAdaptiveQuestions, hp, hl, hr, hf, Bind.bind,
              Except.bind] at h
            exact Except.noConfusion h
          · rcases hrest : genAdaptiveQuestions ids keys stats rho
                (start + 1) m with e | rest
            · simp only [genAdaptiveQuestions, hp, hl, hr, hf, hrest,
                Bind.bind, Except.bind] at h
              exact Except.noConfusion h
            · simp only [genAdaptiveQuestions, hp, hl, hr, hf, hrest,
                Bind.bind, Except.bind, Except.ok.injEq] at h
              subst h
              simp only [List.length_cons]
              rw [ih (start + 1) rest hrest]

/-- A successful `generateSession` passed the count check and returned
`count` questions. -/
theorem generateSession_length (ids keys : List String) (count : ℚ)
    (rho : ℕ → ℕ) (qs : List Question)
    (h : generateSession ids keys count rho = .ok qs) :
    invalidCountCheck count = false ∧ qs.length = count.num.toNat := by
  unfold generateSession at h
  by_cases hc : invalidCountCheck count = true
  · rw [if_pos hc] at h
    exact Except.noConfusion h
  · rw [if_neg hc] at h
    exact ⟨by simpa using hc,
      genQuestions_length ids keys rho count.num.toNat 0 qs h⟩

/-- A successful `generateAdaptiveSession` passed the count check and
returned `count` questions. -/
theorem generateAdaptiveSession_length (ids keys : List String) (count : ℚ)
    (stats : List Stat) (rho : ℕ → ℕ) (qs : List Question)
    (h : generateAdaptiveSession ids keys count stats rho = .ok qs) :
    invalidCountCheck count = false ∧ qs.length = count.num.toNat := by
  unfold generateAdaptiveSession at h
  by_cases hc : invalidCountCheck count = true
  · rw [if_pos hc] at h
    exact Except.noConfusion h
  · rw [if_neg hc] at h
    exact ⟨by simpa using hc,
      genAdaptiveQuestions_length ids keys stats rho count.num.toNat 0 qs h⟩

/-- Shape of the state and effects a successful `startSession` installs:
a question per session-length slot, index 0, phase `answering`, no results
and no payload yet. -/
theorem startSession_ok_shape (config : QuizConfig) (rho : ℕ → ℕ)
    (st0 : QuizState) (eff0 : QuizEffects)
    (h : startSession config rho = .ok (st0, eff0)) :
    invalidCountCheck config.sessionLength = false ∧
    st0.questions.length = config.sessionLength.num.toNat ∧
    st0.currentIndex = 0 ∧
    st0.phase = QPhase.answering ∧
    st0.sessionResults = [] ∧
    eff0.payloads = [] := by
  unfold startSession at h
  rcases hst : config.intervalStats with _ | stats
  · rw [hst] at h
    rcases hg : generateSession config.intervalIds config.keys
        config.sessionLength rho with e | qs
    · rw [hg] at h
      simp [Bind.bind, Except.bind] at h
    · rw [hg] at h
      simp only [Bind.bind, Except.bind, Bool.false_eq_true, if_false,
        Except.ok.injEq, Prod.mk.injEq] at h
      obtain ⟨h1, h2⟩ := h
      obtain ⟨hc, hlen⟩ := generateSession_length _ _ _ _ _ hg
      subst h1
      subst h2
      exact ⟨hc, hlen, rfl, rfl, rfl, rfl⟩
  · rw [hst] at h
    by_cases hlen : decide (stats.length > 0) = true
    · rcases hg : generateAdaptiveSession config.intervalIds config.keys
          config.sessionLength stats rho with e | qs
      · rw [show (some stats).getD ([] : List Stat) = stats from rfl, hg] at h
        simp [hlen, Bind.bind, Except.bind] at h
      · rw [show (some stats).getD ([] : List Stat) = stats from rfl, hg] at h
        simp only [hlen, if_true, Bind.bind, Except.bind, Except.ok.injEq,
          Prod.mk.injEq] at h
        obtain ⟨h1, h2⟩ := h
        obtain ⟨hc, hqlen⟩ := generateAdaptiveSession_length _ _ _ _ _ _ hg
        subst h1
        subst h2
        exact ⟨hc, hqlen, rfl, rfl, rfl, rfl⟩
    · have hlen' : decide (stats.length > 0) = false := by simpa using hlen
      rcases hg : generateSession config.intervalIds config.keys
          config.sessionLength rho with e | qs
      · rw [hg] at h
        simp [hlen', Bind.bind, Except.bind] at h
      · rw [hg] at h
        simp only [hlen', Bool.false_eq_true, if_false, Bind.bind,
          Except.bind, Except.ok.injEq, Prod.mk.injEq] at h
        obtain ⟨h1, h2⟩ := h
        obtain ⟨hc, hqlen⟩ := generateSession_length _ _ _ _ _ hg
        subst h1
        subst h2
        exact ⟨hc, hqlen, rfl, rfl, rfl, rfl⟩

/-- C1 (amended): for every run consisting of a successful start followed
by any sequence of `submitAnswer` calls, the start emits no payload, the
run emits at most one Completion Payload, it emits exactly one iff the run
reaches the `complete` phase, and every emitted payload satisfies
`total == sessionLength` and `results.length == sessionLength`.  (With
unrestricted external `advanceToNext` calls the original claim fails: a
call after completion re-emits the payload — see the counterexample.) -/
theorem claim1_completion (config : QuizConfig) (rho : ℕ → ℕ)
    (st0 : QuizState) (eff0 : QuizEffects) (ops : List QuizOp)
    (hstart : startSession config rho = .ok (st0, eff0))
    (hops : ops.all isSubmit = true) :
    eff0.payloads = [] ∧
    (runOps st0 ops).2.payloads.length ≤ 1 ∧
    ((runOps st0 ops).1.phase = QPhase.complete ↔
      (runOps st0 ops).2.payloads.length = 1) ∧
    (∀ p ∈ (runOps st0 ops).2.payloads,
      (p.total : ℚ) = config.sessionLength ∧
      (p.results.length : ℚ) = config.sessionLength) := by
  obtain ⟨hcount, hqlen, hidx, hph, hres, heff⟩ :=
    startSession_ok_shape config rho st0 eff0 hstart
  obtain ⟨hpos, hcast⟩ := count_valid_facts config.sessionLength hcount
  have hnc : st0.phase ≠ QPhase.complete := by
    rw [hph]
    intro hc
    cases hc
  have hinv : SessionInv config.sessionLength.num.toNat st0 := by
    refine ⟨hqlen, Or.inr ⟨hnc, by omega, by simp [hres, hidx]⟩⟩
  obtain ⟨hinvf, hcompl, hlive, hprops⟩ :=
    runOps_submits ops st0 hops hinv hnc
  refine ⟨heff, ?_, ?_, ?_⟩
  · by_cases hc : (runOps st0 ops).1.phase = QPhase.complete
    · have := hcompl hc
      omega
    · have := hlive hc
      rw [this]
      simp
  · constructor
    · exact hcompl
    · intro hlen1
      by_contra hc
      have := hlive hc
      rw [this] at hlen1
      simp at hlen1
  · intro p hp
    obtain ⟨ht, hr⟩ := hprops p hp
    constructor
    · rw [ht]
      exact hcast
    · rw [hr]
      exact hcast

/-- Witness for C1 at a concrete one-question session answered correctly
once. -/
theorem claim1_witness :
    (runOps
      { questions := [⟨"C", "root", ⟨440, -9⟩, ⟨440, -9⟩⟩]
      , currentIndex := 0
      , phase := QPhase.answering
      , selectedAnswer := Option.none
      , isCorrect := Option.none
      , retryUsed := false
      , sessionResults := [] } [QuizOp.submit "root"]).2.payloads.length
        ≤ 1 :=
  (claim1_completion ⟨["root"], ["C"], 1, Option.none⟩ (fun _ => 0)
    { questions := [⟨"C", "root", ⟨440, -9⟩, ⟨440, -9⟩⟩]
    , currentIndex := 0
    , phase := QPhase.answering
    , selectedAnswer := Option.none
    , isCorrect := Option.none
    , retryUsed := false
    , sessionResults := [] }
    ⟨[], [⟨"C", "root", ⟨440, -9⟩, ⟨440, -9⟩⟩]⟩
    [QuizOp.submit "root"] (by rfl) (by rfl)).2.1

/-- Counterexample to C1 as stated: a started one-question run on which
`advanceToNext` is called twice emits the Completion Payload twice (and
with `total = 0`, not `sessionLength`), so the payload is not produced
exactly once for every call sequence. -/
theorem claim1_counterexample :
    (match startSession ⟨["root"], ["C"], 1, Option.none⟩ (fun _ => 0) with
     | .ok (st, eff) => eff.payloads.length
         + (runOps st [QuizOp.advance, QuizOp.advance]).2.payloads.length
     | .error _ => 0) = 2 := by
  rfl

/-- Justification of the `Hz` order encoding: for nonnegative coefficients
the decidable rational comparison `Hz.le` coincides with the order of the
represented real frequencies `coeff * 2 ^ (exp12 / 12)`. -/
theorem Hz.le_iff_real (a b : Hz) (ha : 0 ≤ a.coeff) (hb : 0 ≤ b.coeff) :
    Hz.le a b ↔ (a.coeff : ℝ) * (2 : ℝ) ^ ((a.exp12 : ℝ) / 12)
      ≤ (b.coeff : ℝ) * (2 : ℝ) ^ ((b.exp12 : ℝ) / 12) := by
  have hpow : ∀ (c : ℚ) (e : ℤ),
      ((c : ℝ) * (2 : ℝ) ^ ((e : ℝ) / 12)) ^ (12 : ℕ)
        = (c : ℝ) ^ (12 : ℕ) * (2 : ℝ) ^ (e : ℝ) := by
    intro c e
    rw [mul_pow, ← Real.rpow_natCast ((2:ℝ) ^ ((e:ℝ)/12)) 12,
      ← Real.rpow_mul (by norm_num)]
    norm_num
  have hA : (0:ℝ) ≤ (a.coeff : ℝ) * (2 : ℝ) ^ ((a.exp12 : ℝ) / 12) :=
    mul_nonneg (by exact_mod_cast ha) (Real.rpow_nonneg (by norm_num) _)
  have hB : (0:ℝ) ≤ (b.coeff : ℝ) * (2 : ℝ) ^ ((b.exp12 : ℝ) / 12) :=
    mul_nonneg (by exact_mod_cast hb) (Real.rpow_nonneg (by norm_num) _)
  rw [← pow_le_pow_iff_left₀ hA hB (by norm_num : (12:ℕ) ≠ 0), hpow, hpow]
  unfold Hz.le
  rw [show ((a.exp12 : ℝ)) = (((a.exp12 : ℤ)) : ℝ) from rfl,
    show ((b.exp12 : ℝ)) = (((b.exp12 : ℤ)) : ℝ) from rfl,
    Real.rpow_intCast, Real.rpow_intCast]
  constructor
  · intro h
    have hc := (Rat.cast_le (K := ℝ)).mpr h
    push_cast at hc
    exact hc
  · intro h
    rw [← Rat.cast_le (K := ℝ)]
    push_cast
    exact h

end EarTrainer
